import Mathlib

/-!
# Input-event queue and frame dispatcher (`src/common/engine/d_event.cpp`)

A shallow embedding of the event ring buffer (`events`, `eventhead`,
`eventtail`), of `D_PostEvent`, `D_ProcessEvents`, `D_RemoveNextCharEvent`,
`PostMouseMove` and of the `FInputEvent` and `FUiEvent` projections, followed
by theorems about them.

Conventions of the embedding.

* The cursors are array indices, modelled as `Nat`; the buffer is a total
  map from indices to records.  The capacity `MAXEVENTS` and the key code
  `KEY_ESCAPE` come from headers that are not part of the sources at hand and
  are parameters of the environment `Env`.
* The responders and hooks are external collaborators.  They act on an
  abstract world `W` and answer "claimed" or "declined"; they have no access
  to the queue.  Every call made to one of them is appended to a log
  (`Ext.calls`) together with the queue slot of the record concerned and the
  answer that came back, so that the order of dispatch can be stated.
* A pointer `event_t *` into the buffer is the slot index; the record it
  points to is read from the buffer at the moment of use.
* The two `while`/`for` loops take a fuel argument and return `none` when it
  runs out; the theorems show how much fuel is enough.
* A `float` is an IEEE 754 binary32 value: the rational number a finite one
  denotes, an infinity or a NaN.  Conversion from `int` and multiplication
  round to the nearest value, ties to even; conversion to `int` truncates and
  is undefined (`none`) when the result does not fit a 32-bit `int`.
* The modifier masks of `d_gui.h` are parameters; `FString(char)` and
  `MakeUTF8` are modelled from the specification.
-/

namespace DEvent

/-! ## Data model -/

/-- Modelled from the spec: the enumerated kind of an event record (the enum is
declared in `d_eventbase.h`, which is not among the sources). -/
inductive EGenericEvent
  | EV_None
  | EV_KeyDown
  | EV_KeyUp
  | EV_Mouse
  | EV_GUI_Event
  | EV_DeviceChange
  deriving DecidableEq

/-- Modelled from the spec: the enumerated GUI sub-kind of a record (declared in
`d_gui.h`, not among the sources).  Every sub-kind other than the five named
ones (the mouse-like ones) is `EV_GUI_Other`. -/
inductive EGUIEvent
  | EV_GUI_None
  | EV_GUI_KeyDown
  | EV_GUI_KeyRepeat
  | EV_GUI_KeyUp
  | EV_GUI_Char
  | EV_GUI_Other (code : Nat)
  deriving DecidableEq

/-- A value of the C++ type `float` (IEEE 754 binary32): a finite value, given
by the rational number it denotes, an infinity, or a NaN.  The two zeros are
one value (they compare equal and convert alike). -/
inductive float
  | finite (q : Rat)
  | inf (negative : Bool)
  | nan
  deriving DecidableEq

instance (n : Nat) : OfNat float n := ⟨float.finite n⟩

/-- The integer nearest to a non-negative rational, the even one of the two
when it lies half-way. -/
def roundHalfEven (q : Rat) : Int :=
  if q - ⌊q⌋ < 1 / 2 then ⌊q⌋
  else if 1 / 2 < q - ⌊q⌋ then ⌊q⌋ + 1
  else if ⌊q⌋ % 2 = 0 then ⌊q⌋ else ⌊q⌋ + 1

/-- The least `j`, counted up from the one given, with `N < 2 ^ (j + 24)`: the
number of binary places by which a magnitude of `N` units of `2 ^ -149` exceeds
the 24 bits of a significand. -/
def float.quantum (N : Nat) : Nat → Nat → Nat
  | 0, j => j
  | fuel + 1, j => if N < 2 ^ (j + 24) then j else float.quantum N fuel (j + 1)

/-- Rounding of an exact result to `float`, to nearest and ties to even: the
magnitude, counted in units of `2 ^ -149` (the smallest subnormal), is rounded to
a multiple of `2 ^ j` that has at most 24 significant bits; a rounded magnitude
of `2 ^ 128` or more is an infinity. -/
def float.round (q : Rat) : float :=
  let j : Nat := float.quantum (⌊|q| * 2 ^ 149⌋).toNat 254 0
  let v : Rat := roundHalfEven (|q| * 2 ^ 149 / 2 ^ j) * 2 ^ j / 2 ^ 149
  if 2 ^ 128 ≤ v then float.inf (decide (q < 0))
  else float.finite (if q < 0 then -v else v)

/-- Conversion `float(n)` of an `int`. -/
def float.ofInt (n : Int) : float := float.round n

/-- Unary minus on `float`. -/
def float.neg : float → float
  | float.finite q => float.finite (-q)
  | float.inf negative => float.inf (!negative)
  | float.nan => float.nan

/-- Multiplication on `float`: the exact product rounded; an infinity times
zero and anything times a NaN is a NaN. -/
def float.mul : float → float → float
  | float.finite a, float.finite b => float.round (a * b)
  | float.finite a, float.inf negative =>
    if a = 0 then float.nan else float.inf (xor (decide (a < 0)) negative)
  | float.inf negative, float.finite b =>
    if b = 0 then float.nan else float.inf (xor negative (decide (b < 0)))
  | float.inf n1, float.inf n2 => float.inf (xor n1 n2)
  | _, _ => float.nan

instance : Neg float := ⟨float.neg⟩

instance : Mul float := ⟨float.mul⟩

/-- Conversion of a `float` to `bool`, as in `if (ev.x || ev.y)`: false for
zero, true for every other value, a NaN included. -/
def float.toBool : float → Bool
  | float.finite q => decide (q ≠ 0)
  | _ => true

/-- Modelled from the spec: the event record `event_t` (declared in
`d_eventbase.h`): kind, sub-kind, integer payload slots and two `float`
deltas. -/
structure event_t where
  type : EGenericEvent
  subtype : EGUIEvent
  data1 : Int
  data2 : Int
  data3 : Int
  x : float
  y : float
  deriving DecidableEq

/-- Modelled from the spec: the external game-state flag (`gamestate.h`); only
`GS_INTRO` is told apart by the dispatcher. -/
inductive gamestate_t
  | GS_INTRO
  | GS_Other (code : Nat)
  deriving DecidableEq

/-- One call made to an external collaborator.  Calls made while a queued
record is processed carry the slot of that record; responder calls carry the
record offered and every predicate carries its answer. -/
inductive Call
  | UpdateJoystickMenu (slot : Nat)
  | WantEscape (slot : Nat) (result : Bool)
  | C_Responder (slot : Nat) (ev : event_t) (result : Bool)
  | M_Responder (slot : Nat) (ev : event_t) (result : Bool)
  | G_Responder (slot : Nat) (ev : event_t) (result : Bool)
  | DispatchEvent (ev : event_t) (result : Bool)
  deriving DecidableEq

/-- The injected callbacks `sysCallbacks`; `WantEscape` and `DispatchEvent` may
be absent (null). -/
structure SysCallbacks (W : Type) where
  G_Responder : event_t → W → Bool × W
  WantEscape : Option (W → Bool × W)
  DispatchEvent : Option (event_t → W → Bool × W)

/-- Everything `d_event.cpp` takes from outside: the two constants, the
game-state query, the device-list refresh `UpdateJoystickMenu(I_UpdateDeviceList())`
and the responders. -/
structure Env (W : Type) where
  MAXEVENTS : Nat
  KEY_ESCAPE : Int
  gamestate : W → gamestate_t
  UpdateJoystickMenu : W → W
  C_Responder : event_t → W → Bool × W
  M_Responder : event_t → W → Bool × W
  sysCallbacks : SysCallbacks W

/-- The state of the external collaborators and the log of the calls made to
them. -/
structure Ext (W : Type) where
  world : W
  calls : List Call

/-- The globals of `d_event.cpp` (lines 47-49) next to the external state. -/
structure State (W : Type) where
  events : Nat → event_t
  eventhead : Nat
  eventtail : Nat
  ext : Ext W

/-- The locals of `D_ProcessEvents` (lines 69-70): `keywasdown` is the set of
key codes whose bit is set, `delayedevents` the pointers pushed so far. -/
structure Locals where
  keywasdown : List Int
  delayedevents : List Nat

variable {W : Type}

/-! ## Calls to the collaborators -/

/-- Runs `UpdateJoystickMenu(I_UpdateDeviceList())` (line 87). -/
def Ext.UpdateJoystickMenu (env : Env W) (slot : Nat) (x : Ext W) : Ext W :=
  { world := env.UpdateJoystickMenu x.world,
    calls := x.calls ++ [Call.UpdateJoystickMenu slot] }

/-- Evaluates `sysCallbacks.WantEscape && sysCallbacks.WantEscape()` (line 90). -/
def Ext.WantEscape (env : Env W) (slot : Nat) (x : Ext W) : Bool × Ext W :=
  match env.sysCallbacks.WantEscape with
  | none => (false, x)
  | some hook =>
    let r := hook x.world
    (r.1, { world := r.2, calls := x.calls ++ [Call.WantEscape slot r.1] })

/-- Runs `C_Responder(ev)` (line 94). -/
def Ext.C_Responder (env : Env W) (slot : Nat) (ev : event_t) (x : Ext W) :
    Bool × Ext W :=
  let r := env.C_Responder ev x.world
  (r.1, { world := r.2, calls := x.calls ++ [Call.C_Responder slot ev r.1] })

/-- Runs `M_Responder(ev)` (line 96). -/
def Ext.M_Responder (env : Env W) (slot : Nat) (ev : event_t) (x : Ext W) :
    Bool × Ext W :=
  let r := env.M_Responder ev x.world
  (r.1, { world := r.2, calls := x.calls ++ [Call.M_Responder slot ev r.1] })

/-- Runs `sysCallbacks.G_Responder(ev)` (line 101). -/
def Ext.G_Responder (env : Env W) (slot : Nat) (ev : event_t) (x : Ext W) :
    Bool × Ext W :=
  let r := env.sysCallbacks.G_Responder ev x.world
  (r.1, { world := r.2, calls := x.calls ++ [Call.G_Responder slot ev r.1] })

/-! ## `D_PostEvent` (lines 154-166) -/

/-- Lines 164-165: `events[eventhead] = *ev; eventhead = (eventhead + 1) & (MAXEVENTS - 1)`. -/
def D_PostEvent.store (env : Env W) (ev : event_t) (s : State W) : State W :=
  { s with
    events := fun i => if i = s.eventhead then ev else s.events i,
    eventhead := (s.eventhead + 1) &&& (env.MAXEVENTS - 1) }

/-- The function `D_PostEvent(ev)` applied to the record `*ev`. -/
def D_PostEvent (env : Env W) (ev : event_t) (s : State W) : State W :=
  if ev.type = EGenericEvent.EV_DeviceChange
      ∧ (s.events s.eventhead).type = EGenericEvent.EV_DeviceChange then
    s
  else
    match env.sysCallbacks.DispatchEvent with
    | none => D_PostEvent.store env ev s
    | some hook =>
      let r := hook ev s.ext.world
      let s1 : State W :=
        { s with ext := { world := r.2, calls := s.ext.calls ++ [Call.DispatchEvent ev r.1] } }
      if r.1 = true then s1 else D_PostEvent.store env ev s1

/-! ## `D_ProcessEvents` (lines 67-108) -/

/-- Line 101: `if (sysCallbacks.G_Responder(ev) && ev->type == EV_KeyDown) keywasdown.Set(ev->data1)`. -/
def D_ProcessEvents.gameplay (env : Env W) (slot : Nat) (ev : event_t) (x : Ext W)
    (l : Locals) : Ext W × Locals :=
  let g := x.G_Responder env slot ev
  if g.1 = true ∧ ev.type = EGenericEvent.EV_KeyDown then
    (g.2, { l with keywasdown := ev.data1 :: l.keywasdown })
  else
    (g.2, l)

/-- Lines 86-87: `if (ev->type == EV_DeviceChange) UpdateJoystickMenu(I_UpdateDeviceList())`. -/
def D_ProcessEvents.refresh (env : Env W) (slot : Nat) (ev : event_t) (x : Ext W) : Ext W :=
  if ev.type = EGenericEvent.EV_DeviceChange then x.UpdateJoystickMenu env slot else x

/-- Line 90, negated: the Boolean is true when the record is a key-down of
`KEY_ESCAPE`, `sysCallbacks.WantEscape` is present and it returns true (the
game intercepts Escape).  The hook is called only for such a key-down. -/
def D_ProcessEvents.escape (env : Env W) (slot : Nat) (ev : event_t) (x : Ext W) :
    Bool × Ext W :=
  if ev.type = EGenericEvent.EV_KeyDown ∧ ev.data1 = env.KEY_ESCAPE then
    x.WantEscape env slot
  else
    (false, x)

/-- Lines 89-99: the Escape interception, the `GS_INTRO` gate and the console
and menu responders.  The Boolean is true when one of the two ate the event
(the two `continue` statements). -/
def D_ProcessEvents.ui (env : Env W) (slot : Nat) (ev : event_t) (x : Ext W) :
    Bool × Ext W :=
  let esc := D_ProcessEvents.escape env slot ev x
  if esc.1 = false then
    if env.gamestate esc.2.world ≠ gamestate_t.GS_INTRO then
      let c := esc.2.C_Responder env slot ev
      if c.1 = true then (true, c.2)
      else
        let m := c.2.M_Responder env slot ev
        if m.1 = true then (true, m.2) else (false, m.2)
    else (false, esc.2)
  else (false, esc.2)

/-- Lines 78-101: what one iteration of the drain loop does with the record
`ev` found at `slot`. -/
def D_ProcessEvents.route (env : Env W) (slot : Nat) (ev : event_t) (x : Ext W)
    (l : Locals) : Ext W × Locals :=
  if ev.type = EGenericEvent.EV_KeyUp ∧ ev.data1 ∈ l.keywasdown then
    (x, { l with delayedevents := l.delayedevents ++ [slot] })
  else if ev.type = EGenericEvent.EV_None then
    (x, l)
  else
    let u := D_ProcessEvents.ui env slot ev (D_ProcessEvents.refresh env slot ev x)
    if u.1 = true then (u.2, l) else D_ProcessEvents.gameplay env slot ev u.2 l

/-- Lines 75-101: one iteration of the drain loop. -/
def D_ProcessEvents.body (env : Env W) (s : State W) (l : Locals) : State W × Locals :=
  let slot := s.eventtail
  let r := D_ProcessEvents.route env slot (s.events slot) s.ext l
  ({ s with eventtail := (s.eventtail + 1) &&& (env.MAXEVENTS - 1), ext := r.1 }, r.2)

/-- Lines 73-102: `while (eventtail != eventhead)`. -/
def D_ProcessEvents.loop (env : Env W) : Nat → State W → Locals → Option (State W × Locals)
  | 0, s, l => if s.eventtail = s.eventhead then some (s, l) else none
  | fuel + 1, s, l =>
    if s.eventtail = s.eventhead then some (s, l)
    else
      let r := D_ProcessEvents.body env s l
      D_ProcessEvents.loop env fuel r.1 r.2

/-- Lines 69-102: the locals are cleared and the queue is drained. -/
def D_ProcessEvents.drain (env : Env W) (fuel : Nat) (s : State W) :
    Option (State W × Locals) :=
  D_ProcessEvents.loop env fuel s { keywasdown := [], delayedevents := [] }

/-- Lines 104-107: `for (auto ev: delayedevents) D_PostEvent(ev)`; each pointer
is dereferenced when its turn comes. -/
def D_ProcessEvents.repost (env : Env W) : List Nat → State W → State W
  | [], s => s
  | slot :: rest, s => D_ProcessEvents.repost env rest (D_PostEvent env (s.events slot) s)

/-- The function `D_ProcessEvents()`. -/
def D_ProcessEvents (env : Env W) (fuel : Nat) (s : State W) : Option (State W) :=
  match D_ProcessEvents.drain env fuel s with
  | none => none
  | some r => some (D_ProcessEvents.repost env r.2.delayedevents r.1)

/-! ## `D_RemoveNextCharEvent` (lines 124-143) -/

/-- Line 134: `ev->type = EV_None` for the record at `slot`. -/
def State.erase (s : State W) (slot : Nat) : State W :=
  { s with
    events := fun i =>
      if i = slot then { s.events i with type := EGenericEvent.EV_None } else s.events i }

/-- Lines 127-142: the scan of `D_RemoveNextCharEvent`, from `evnum` on. -/
def D_RemoveNextCharEvent.loop (env : Env W) : Nat → Nat → State W → Option (State W)
  | 0, evnum, s => if evnum = s.eventhead then some s else none
  | fuel + 1, evnum, s =>
    if evnum = s.eventhead then some s
    else if (s.events evnum).type ≠ EGenericEvent.EV_GUI_Event then some s
    else if (s.events evnum).subtype = EGUIEvent.EV_GUI_KeyDown
        ∨ (s.events evnum).subtype = EGUIEvent.EV_GUI_Char then
      if (s.events evnum).subtype = EGUIEvent.EV_GUI_Char then some (s.erase evnum)
      else D_RemoveNextCharEvent.loop env fuel ((evnum + 1) &&& (env.MAXEVENTS - 1)) (s.erase evnum)
    else some s

/-- The function `D_RemoveNextCharEvent()`; the `assert` of line 126 is a
precondition of the callers and has no effect on the state. -/
def D_RemoveNextCharEvent (env : Env W) (fuel : Nat) (s : State W) : Option (State W) :=
  D_RemoveNextCharEvent.loop env fuel s.eventtail s

/-! ## `FInputEvent` (lines 187-212) -/

/-- Text as a sequence of character codes (bytes). -/
abbrev FString := List Nat

/-- Modelled from the spec: `FString(char(c))`, the one-character text whose
character is `c` narrowed to a `char` (the class `FString` is not among the
sources). -/
def FString.ofChar (c : Int) : FString := [(c % 256).toNat]

/-- The least value of a 32-bit `int`. -/
def INT_MIN : Int := -2147483648

/-- The greatest value of a 32-bit `int`. -/
def INT_MAX : Int := 2147483647

/-- Conversion `int(f)` of a `float`: the value with its fractional part
discarded.  The behaviour is undefined (`none`) when that value does not fit an
`int`, and for an infinity or a NaN. -/
def float_to_int : float → Option Int
  | float.finite q =>
    if INT_MIN ≤ Int.tdiv q.num q.den ∧ Int.tdiv q.num q.den ≤ INT_MAX then
      some (Int.tdiv q.num q.den)
    else none
  | _ => none

/-- The fields of the Generic Input View. -/
structure FInputEvent where
  Type_ : EGenericEvent
  KeyScan : Int
  KeyString : FString
  KeyChar : Int
  MouseX : Int
  MouseY : Int
  deriving DecidableEq

/-- The constructor `FInputEvent::FInputEvent(const event_t *ev)`.  It has no
defined result (`none`) when one of the two conversions of lines 206-207 has
none. -/
def FInputEvent.construct (ev : event_t) : Option FInputEvent :=
  let r : FInputEvent :=
    { Type_ := ev.type, KeyScan := 0, KeyString := [], KeyChar := 0, MouseX := 0, MouseY := 0 }
  match ev.type with
  | EGenericEvent.EV_None => some r
  | EGenericEvent.EV_KeyDown | EGenericEvent.EV_KeyUp =>
    some { r with KeyScan := ev.data1, KeyChar := ev.data2, KeyString := FString.ofChar ev.data1 }
  | EGenericEvent.EV_Mouse =>
    match float_to_int ev.x, float_to_int ev.y with
    | some mx, some my => some { r with MouseX := mx, MouseY := my }
    | _, _ => none
  | _ => some r

/-! ## Notions used to state the properties -/

/-- Line 157: the duplicate test of `D_PostEvent` fires. -/
def D_PostEvent.suppressed (ev : event_t) (s : State W) : Bool :=
  decide (ev.type = EGenericEvent.EV_DeviceChange
    ∧ (s.events s.eventhead).type = EGenericEvent.EV_DeviceChange)

/-- Line 161: the pre-dispatch hook is present and claims the record. -/
def D_PostEvent.absorbed (env : Env W) (ev : event_t) (s : State W) : Bool :=
  match env.sysCallbacks.DispatchEvent with
  | none => false
  | some hook => (hook ev s.ext.world).1

/-- Posts the records of a list one after the other. -/
def postAll (env : Env W) : List event_t → State W → State W
  | [], s => s
  | ev :: rest, s => postAll env rest (D_PostEvent env ev s)

/-- Every record of the list is stored by its `D_PostEvent` call: none is a
suppressed device-change and none is claimed by the pre-dispatch hook. -/
def allStored (env : Env W) : List event_t → State W → Prop
  | [], _ => True
  | ev :: rest, s =>
    D_PostEvent.suppressed ev s = false ∧ D_PostEvent.absorbed env ev s = false
      ∧ allStored env rest (D_PostEvent env ev s)

/-- The records of a list paired with the slots they occupy when they are
stored one after the other from slot `h` on. -/
def posted (M : Nat) : Nat → List event_t → List (Nat × event_t)
  | _, [] => []
  | h, ev :: rest => (h % M, ev) :: posted M (h + 1) rest

/-- Both cursors are valid indices of the buffer. -/
def State.inRange (env : Env W) (s : State W) : Prop :=
  s.eventhead < env.MAXEVENTS ∧ s.eventtail < env.MAXEVENTS

/-- Number of records between `eventtail` and `eventhead`. -/
def queueLength (env : Env W) (s : State W) : Nat :=
  (s.eventhead + env.MAXEVENTS - s.eventtail) % env.MAXEVENTS

/-- The `n` slots from `t` on, in ring order, each with the record it holds. -/
def queuedFrom (M : Nat) (events : Nat → event_t) : Nat → Nat → List (Nat × event_t)
  | _, 0 => []
  | t, n + 1 => (t % M, events (t % M)) :: queuedFrom M events (t + 1) n

/-- The queued records, from `eventtail` up to `eventhead`, in the order in
which the drain loop reads them, each with its slot. -/
def queued (env : Env W) (s : State W) : List (Nat × event_t) :=
  queuedFrom env.MAXEVENTS s.events s.eventtail (queueLength env s)

/-- The slot of the queued record during whose processing a call was made. -/
def Call.slotOf : Call → Option Nat
  | Call.UpdateJoystickMenu slot => some slot
  | Call.WantEscape slot _ => some slot
  | Call.C_Responder slot _ _ => some slot
  | Call.M_Responder slot _ _ => some slot
  | Call.G_Responder slot _ _ => some slot
  | Call.DispatchEvent _ _ => none

/-- The record offered, with its slot, when the call is an offer to one of the
three responders. -/
def Call.offer : Call → Option (Nat × event_t)
  | Call.C_Responder slot ev _ => some (slot, ev)
  | Call.M_Responder slot ev _ => some (slot, ev)
  | Call.G_Responder slot ev _ => some (slot, ev)
  | _ => none

/-- The call is an offer to the console or to the menu responder. -/
def Call.isUi : Call → Bool
  | Call.C_Responder _ _ _ => true
  | Call.M_Responder _ _ _ => true
  | _ => false

/-- The offers to responders found in a log, in order. -/
def offers (log : List Call) : List (Nat × event_t) := log.filterMap Call.offer

/-- The drain loop seen record by record: `route` applied to each record of a
list in turn. -/
def runRecs (env : Env W) : List (Nat × event_t) → Ext W × Locals → Ext W × Locals
  | [], r => r
  | p :: rest, r => runRecs env rest (D_ProcessEvents.route env p.1 p.2 r.1 r.2)

/-! ## Concrete inputs -/

/-- The all-zero record of the zero-initialised buffer. -/
def zeroEvent : event_t :=
  { type := EGenericEvent.EV_None, subtype := EGUIEvent.EV_GUI_None,
    data1 := 0, data2 := 0, data3 := 0, x := 0, y := 0 }

/-- A key-down record with the given scan code and character code. -/
def keyDown (scan char : Int) : event_t :=
  { zeroEvent with type := EGenericEvent.EV_KeyDown, data1 := scan, data2 := char }

/-- A key-up record with the given scan code and character code. -/
def keyUp (scan char : Int) : event_t :=
  { zeroEvent with type := EGenericEvent.EV_KeyUp, data1 := scan, data2 := char }

/-- A device-change record. -/
def deviceChange : event_t :=
  { zeroEvent with type := EGenericEvent.EV_DeviceChange }

/-- The queue at program start: zero-initialised globals. -/
def startState : State Unit :=
  { events := fun _ => zeroEvent, eventhead := 0, eventtail := 0,
    ext := { world := (), calls := [] } }

/-- A responder that declines everything. -/
def declines (_ : event_t) (w : Unit) : Bool × Unit := (false, w)

/-- A responder that claims key-downs and declines the rest. -/
def claimsKeyDown (ev : event_t) (w : Unit) : Bool × Unit :=
  (decide (ev.type = EGenericEvent.EV_KeyDown), w)

/-- An environment with 128 slots, no optional hook, and a gameplay responder
that claims key-downs after the console and the menu declined. -/
def gameEnv : Env Unit where
  MAXEVENTS := 128
  KEY_ESCAPE := 1
  gamestate := fun _ => gamestate_t.GS_Other 0
  UpdateJoystickMenu := id
  C_Responder := declines
  M_Responder := declines
  sysCallbacks := { G_Responder := claimsKeyDown, WantEscape := none, DispatchEvent := none }

/-- A pre-dispatch hook or responder that claims everything. -/
def claimsAll (_ : event_t) (w : Unit) : Bool × Unit := (true, w)

/-- An environment whose pre-dispatch hook claims every record (an alternate
front-end that takes all input). -/
def headlessEnv : Env Unit where
  MAXEVENTS := 128
  KEY_ESCAPE := 1
  gamestate := fun _ => gamestate_t.GS_Other 0
  UpdateJoystickMenu := id
  C_Responder := declines
  M_Responder := declines
  sysCallbacks := { G_Responder := declines, WantEscape := none, DispatchEvent := some claimsAll }

/-- An environment in which the game intercepts Escape. -/
def escapeEnv : Env Unit where
  MAXEVENTS := 128
  KEY_ESCAPE := 1
  gamestate := fun _ => gamestate_t.GS_Other 0
  UpdateJoystickMenu := id
  C_Responder := declines
  M_Responder := declines
  sysCallbacks :=
    { G_Responder := claimsKeyDown, WantEscape := some (fun w => (true, w)), DispatchEvent := none }

/-- An environment like `gameEnv` with a pre-dispatch hook installed that
declines every record. -/
def observedEnv : Env Unit where
  MAXEVENTS := 128
  KEY_ESCAPE := 1
  gamestate := fun _ => gamestate_t.GS_Other 0
  UpdateJoystickMenu := id
  C_Responder := declines
  M_Responder := declines
  sysCallbacks := { G_Responder := claimsKeyDown, WantEscape := none, DispatchEvent := some declines }

/-- The locals at the start of a `D_ProcessEvents` pass. -/
def freshLocals : Locals := { keywasdown := [], delayedevents := [] }

/-- Where the record at `eventtail` stands when it reaches the tests of lines
90-92: whether the game intercepted Escape, and the state of the collaborators
at that moment (after a device-list refresh and a `WantEscape` call, if any). -/
def D_ProcessEvents.atGate (env : Env W) (s : State W) : Bool × Ext W :=
  D_ProcessEvents.escape env s.eventtail (s.events s.eventtail)
    (D_ProcessEvents.refresh env s.eventtail (s.events s.eventtail) s.ext)

/-- The responder chain in the words of the specification: the console is
offered the record first, the menu if and only if the console declined, the
gameplay responder if and only if both declined; each at most once. -/
def chainSpec (env : Env W) (slot : Nat) (ev : event_t) (w : W) : List Call :=
  Call.C_Responder slot ev (env.C_Responder ev w).1 ::
    (if (env.C_Responder ev w).1 = true then []
     else
      Call.M_Responder slot ev (env.M_Responder ev (env.C_Responder ev w).2).1 ::
        (if (env.M_Responder ev (env.C_Responder ev w).2).1 = true then []
         else
          [Call.G_Responder slot ev
            (env.sysCallbacks.G_Responder ev (env.M_Responder ev (env.C_Responder ev w).2).2).1]))

/-- The calls appended to the log between two states of the collaborators. -/
def newCalls (before after : Ext W) : List Call := after.calls.drop before.calls.length

/-- The pointers pushed to `delayedevents` between two states of the locals. -/
def newDelayed (before after : Locals) : List Nat :=
  after.delayedevents.drop before.delayedevents.length

/-- A key-down waits at the read cursor of a queue with 128 slots and no hook. -/
def oneKeyDown : State Unit := D_PostEvent gameEnv (keyDown 30 97) startState

/-- An Escape key-down waits at the read cursor. -/
def oneEscape : State Unit := D_PostEvent escapeEnv (keyDown 1 27) startState

/-- The deferral test of line 78. -/
def deferredNow (ev : event_t) (l : Locals) : Prop :=
  ev.type = EGenericEvent.EV_KeyUp ∧ ev.data1 ∈ l.keywasdown

instance (ev : event_t) (l : Locals) : Decidable (deferredNow ev l) := by
  unfold deferredNow
  infer_instance

/-- A key-down followed by the key-up of the same key, posted at program start
into a queue with 128 slots whose gameplay responder claims key-downs. -/
def pressRelease : State Unit := postAll gameEnv [keyDown 30 97, keyUp 30 97] startState

/-- The record `ev` with its type overwritten by `EV_None`. -/
def event_t.erased (ev : event_t) : event_t := { ev with type := EGenericEvent.EV_None }

/-- No write of a re-post run lands on a pointer that is still to be read:
when the pointers of the list are re-posted one after the other with the
write cursor starting at slot `w`, each write misses all later pointers. -/
def safeRepost (M : Nat) : Nat → List Nat → Prop
  | _, [] => True
  | w, _ :: rest => (∀ σ ∈ rest, σ ≠ w % M) ∧ safeRepost M (w + 1) rest

/-! ## `PostMouseMove` (lines 169-184) -/

/-- The configuration variables of lines 51-54; the sensitivities are `float`
values of any kind. -/
structure CVars where
  m_sensitivity_x : float
  m_sensitivity_y : float
  invertmouse : Bool
  invertmousex : Bool

/-- Lines 171-177: the zero-initialised local record `ev` with its two deltas
set from the raw motion, the sensitivities and the inversion flags. -/
def PostMouseMove.delta (cv : CVars) (xx yy : Int) : event_t :=
  let ev0 : event_t :=
    { zeroEvent with
      x := float.ofInt xx * cv.m_sensitivity_x, y := (-float.ofInt yy) * cv.m_sensitivity_y }
  let ev1 : event_t := if cv.invertmousex = true then { ev0 with x := -ev0.x } else ev0
  if cv.invertmouse = true then { ev1 with y := -ev1.y } else ev1

/-- Lines 179-183: the record handed to `D_PostEvent`, if the call is made at
all (`if (ev.x || ev.y)`). -/
def PostMouseMove.event (cv : CVars) (xx yy : Int) : Option event_t :=
  if (PostMouseMove.delta cv xx yy).x.toBool = true
      ∨ (PostMouseMove.delta cv xx yy).y.toBool = true then
    some { PostMouseMove.delta cv xx yy with type := EGenericEvent.EV_Mouse }
  else
    none

/-- The function `PostMouseMove(xx, yy)`. -/
def PostMouseMove (env : Env W) (cv : CVars) (xx yy : Int) (s : State W) : State W :=
  match PostMouseMove.event cv xx yy with
  | none => s
  | some ev => D_PostEvent env ev s

/-- The default configuration of lines 51-54. -/
def defaultCVars : CVars :=
  { m_sensitivity_x := 2, m_sensitivity_y := 2, invertmouse := false, invertmousex := false }

/-- The default sensitivities with both inversion flags set. -/
def invertedCVars : CVars :=
  { m_sensitivity_x := 2, m_sensitivity_y := 2, invertmouse := true, invertmousex := true }

/-- An infinite horizontal sensitivity (a floating-point configuration variable
takes any `float` value), the rest as by default. -/
def infiniteCVars : CVars :=
  { m_sensitivity_x := float.inf false, m_sensitivity_y := 2, invertmouse := false,
    invertmousex := false }

/-- A vertical sensitivity that is not a number, the rest as by default. -/
def nanCVars : CVars :=
  { m_sensitivity_x := 2, m_sensitivity_y := float.nan, invertmouse := false,
    invertmousex := false }

/-- Both sensitivities zero. -/
def zeroSensitivityCVars : CVars :=
  { m_sensitivity_x := 0, m_sensitivity_y := 0, invertmouse := false, invertmousex := false }

/-! ## `FUiEvent` (lines 214-252) -/

/-- The modifier masks `GKM_SHIFT`, `GKM_ALT` and `GKM_CTRL` of `d_gui.h`, which
is not among the sources. -/
structure GKM where
  GKM_SHIFT : Int
  GKM_ALT : Int
  GKM_CTRL : Int

/-- The test `!!(v & mask)`. -/
def maskSet (v mask : Int) : Bool := decide (Int.land v mask ≠ 0)

/-- Modelled from the spec: `MakeUTF8(c)`, the variable-width (UTF-8) text
encoding of the code point `c` (declared in `utf8.h`, not among the sources). -/
def MakeUTF8 (c : Int) : FString :=
  let n := c.toNat
  if n < 128 then [n]
  else if n < 2048 then [192 + n / 64, 128 + n % 64]
  else if n < 65536 then [224 + n / 4096, 128 + n / 64 % 64, 128 + n % 64]
  else [240 + n / 262144 % 8, 128 + n / 4096 % 64, 128 + n / 64 % 64, 128 + n % 64]

/-- The fields of the GUI Event View. -/
structure FUiEvent where
  Type_ : EGUIEvent
  KeyString : FString
  KeyChar : Int
  MouseX : Int
  MouseY : Int
  IsShift : Bool
  IsAlt : Bool
  IsCtrl : Bool
  deriving DecidableEq

/-- The constructor `FUiEvent::FUiEvent(const event_t *ev)`. -/
def FUiEvent.construct (gkm : GKM) (ev : event_t) : FUiEvent :=
  let r : FUiEvent :=
    { Type_ := ev.subtype, KeyString := [], KeyChar := 0, MouseX := 0, MouseY := 0,
      IsShift := false, IsAlt := false, IsCtrl := false }
  match ev.subtype with
  | EGUIEvent.EV_GUI_None => r
  | EGUIEvent.EV_GUI_KeyDown | EGUIEvent.EV_GUI_KeyRepeat | EGUIEvent.EV_GUI_KeyUp =>
    { r with
      KeyChar := ev.data1, KeyString := FString.ofChar ev.data1,
      IsShift := maskSet ev.data3 gkm.GKM_SHIFT,
      IsAlt := maskSet ev.data3 gkm.GKM_ALT,
      IsCtrl := maskSet ev.data3 gkm.GKM_CTRL }
  | EGUIEvent.EV_GUI_Char =>
    { r with
      KeyChar := ev.data1, KeyString := MakeUTF8 ev.data1,
      IsAlt := decide (ev.data2 ≠ 0) }
  | EGUIEvent.EV_GUI_Other _ =>
    { r with
      MouseX := ev.data1, MouseY := ev.data2,
      IsShift := maskSet ev.data3 gkm.GKM_SHIFT,
      IsAlt := maskSet ev.data3 gkm.GKM_ALT,
      IsCtrl := maskSet ev.data3 gkm.GKM_CTRL }

/-- Modifier masks with one bit each: shift 1, control 2, alt 4. -/
def oneBitMasks : GKM := { GKM_SHIFT := 1, GKM_ALT := 4, GKM_CTRL := 2 }

/-- A GUI record with the given sub-kind and payload. -/
def guiEvent (sub : EGUIEvent) (d1 d2 d3 : Int) : event_t :=
  { zeroEvent with
    type := EGenericEvent.EV_GUI_Event, subtype := sub, data1 := d1, data2 := d2, data3 := d3 }

/-- A record of type key-down that carries a mouse-like GUI sub-kind. -/
def keyTypedMouseLike : event_t :=
  { keyDown 30 97 with subtype := EGUIEvent.EV_GUI_Other 6, data3 := 1 }

/-- A mouse record with the given deltas. -/
def mouseEvent (dx dy : float) : event_t :=
  { zeroEvent with type := EGenericEvent.EV_Mouse, x := dx, y := dy }

/-- Truncation toward zero in the words of the specification: the floor of a
non-negative value, the ceiling of a negative one. -/
def truncateTowardZero (q : Rat) : Int := if 0 ≤ q then ⌊q⌋ else ⌈q⌉

/-- The extent of `D_RemoveNextCharEvent` in the words of its description: the
number of leading records removed from a list of queued records, namely the GUI
key-downs at the front and the GUI char that follows them; the count stops at
the first record that is neither. -/
def removeExtent : List (Nat × event_t) → Nat
  | [] => 0
  | p :: rest =>
    if p.2.type ≠ EGenericEvent.EV_GUI_Event then 0
    else if p.2.subtype = EGUIEvent.EV_GUI_Char then 1
    else if p.2.subtype = EGUIEvent.EV_GUI_KeyDown then 1 + removeExtent rest
    else 0

/-- The record is a GUI key-down. -/
def isGuiKeyDown (ev : event_t) : Prop :=
  ev.type = EGenericEvent.EV_GUI_Event ∧ ev.subtype = EGUIEvent.EV_GUI_KeyDown

/-- The record is a GUI char. -/
def isGuiChar (ev : event_t) : Prop :=
  ev.type = EGenericEvent.EV_GUI_Event ∧ ev.subtype = EGUIEvent.EV_GUI_Char

/-- A queued record with its type overwritten by `EV_None`. -/
def eraseRec (q : Nat × event_t) : Nat × event_t := (q.1, q.2.erased)

/-- Two GUI key-downs (a dead key and a letter), the GUI char they produce and
a further key-down wait in a queue with 128 slots. -/
def deadKeyQueue : State Unit :=
  postAll gameEnv
    [guiEvent EGUIEvent.EV_GUI_KeyDown 94 0 0, guiEvent EGUIEvent.EV_GUI_KeyDown 101 0 0,
      guiEvent EGUIEvent.EV_GUI_Char 234 0 0, keyDown 30 97]
    startState

/-- The zero-initialised globals at program start, for any state of the
collaborators. -/
def zeroState (w : W) : State W :=
  { events := fun _ => zeroEvent, eventhead := 0, eventtail := 0,
    ext := { world := w, calls := [] } }

/-! ## Ring arithmetic -/

theorem mask_eq_mod {M k : Nat} (hM : M = 2 ^ k) (x : Nat) : x &&& (M - 1) = x % M := by
  subst hM
  exact Nat.and_pow_two_sub_one_eq_mod x k

theorem pow_two_pos {M k : Nat} (hM : M = 2 ^ k) : 0 < M := by
  subst hM
  exact Nat.pos_pow_of_pos k (by decide)

/-! ## `D_PostEvent` -/

theorem D_PostEvent_of_suppressed (env : Env W) (ev : event_t) (s : State W)
    (h : D_PostEvent.suppressed ev s = true) : D_PostEvent env ev s = s := by
  have h1 : ev.type = EGenericEvent.EV_DeviceChange
      ∧ (s.events s.eventhead).type = EGenericEvent.EV_DeviceChange := by
    simpa [D_PostEvent.suppressed] using h
  simp [D_PostEvent, h1]

theorem D_PostEvent_queue_of_absorbed (env : Env W) (ev : event_t) (s : State W)
    (h : D_PostEvent.absorbed env ev s = true) :
    (D_PostEvent env ev s).events = s.events
      ∧ (D_PostEvent env ev s).eventhead = s.eventhead
      ∧ (D_PostEvent env ev s).eventtail = s.eventtail := by
  unfold D_PostEvent.absorbed at h
  unfold D_PostEvent
  split
  · exact ⟨rfl, rfl, rfl⟩
  · cases hd : env.sysCallbacks.DispatchEvent with
    | none => simp [hd] at h
    | some hook =>
      simp only [hd] at h
      simp [h]

theorem D_PostEvent_queue_of_stored (env : Env W) (ev : event_t) (s : State W)
    (h1 : D_PostEvent.suppressed ev s = false) (h2 : D_PostEvent.absorbed env ev s = false) :
    (D_PostEvent env ev s).events = (fun i => if i = s.eventhead then ev else s.events i)
      ∧ (D_PostEvent env ev s).eventhead = (s.eventhead + 1) &&& (env.MAXEVENTS - 1)
      ∧ (D_PostEvent env ev s).eventtail = s.eventtail := by
  have h1n : ¬ (ev.type = EGenericEvent.EV_DeviceChange
      ∧ (s.events s.eventhead).type = EGenericEvent.EV_DeviceChange) := by
    simpa [D_PostEvent.suppressed] using h1
  unfold D_PostEvent.absorbed at h2
  unfold D_PostEvent
  rw [if_neg h1n]
  cases hd : env.sysCallbacks.DispatchEvent with
  | none => exact ⟨rfl, rfl, rfl⟩
  | some hook =>
    simp only [hd] at h2
    simp [h2, D_PostEvent.store]

/-- Whatever `D_PostEvent` does, the queue is either untouched or extended by
the record at the old `eventhead`. -/
theorem D_PostEvent_queue_cases (env : Env W) (ev : event_t) (s : State W) :
    ((D_PostEvent env ev s).events = s.events
        ∧ (D_PostEvent env ev s).eventhead = s.eventhead
        ∧ (D_PostEvent env ev s).eventtail = s.eventtail)
      ∨ ((D_PostEvent env ev s).events = (fun i => if i = s.eventhead then ev else s.events i)
        ∧ (D_PostEvent env ev s).eventhead = (s.eventhead + 1) &&& (env.MAXEVENTS - 1)
        ∧ (D_PostEvent env ev s).eventtail = s.eventtail) := by
  cases h1 : D_PostEvent.suppressed ev s with
  | true => left; rw [D_PostEvent_of_suppressed env ev s h1]; exact ⟨rfl, rfl, rfl⟩
  | false =>
    cases h2 : D_PostEvent.absorbed env ev s with
    | true => left; exact D_PostEvent_queue_of_absorbed env ev s h2
    | false => right; exact D_PostEvent_queue_of_stored env ev s h1 h2

/-- C6. Enqueue postcondition: when the record is neither a suppressed
device-change nor claimed by the pre-dispatch hook, `D_PostEvent` stores it in
the slot at the old `eventhead`, advances `eventhead` by one modulo
`MAXEVENTS` (a power of two), leaves `eventtail` and all other slots alone,
and the new `eventhead` is a valid index. -/
theorem C6_post_event_stores (env : Env W) (k : Nat) (hM : env.MAXEVENTS = 2 ^ k)
    (ev : event_t) (s : State W)
    (h1 : D_PostEvent.suppressed ev s = false) (h2 : D_PostEvent.absorbed env ev s = false) :
    (D_PostEvent env ev s).events s.eventhead = ev
      ∧ (D_PostEvent env ev s).eventhead = (s.eventhead + 1) % env.MAXEVENTS
      ∧ (D_PostEvent env ev s).eventtail = s.eventtail
      ∧ (∀ i, i ≠ s.eventhead → (D_PostEvent env ev s).events i = s.events i)
      ∧ (s.eventhead < env.MAXEVENTS → (D_PostEvent env ev s).eventhead < env.MAXEVENTS) := by
  obtain ⟨he, hh, ht⟩ := D_PostEvent_queue_of_stored env ev s h1 h2
  have hpos : 0 < env.MAXEVENTS := pow_two_pos hM
  refine ⟨?_, ?_, ht, ?_, ?_⟩
  · rw [he]; simp
  · rw [hh, mask_eq_mod hM]
  · intro i hi
    rw [he]; simp [hi]
  · intro _
    rw [hh, mask_eq_mod hM]
    exact Nat.mod_lt _ hpos

/-- C6, at a concrete input: a key-down posted at program start. -/
theorem C6_post_event_stores_witness :
    D_PostEvent.suppressed (keyDown 30 97) startState = false
      ∧ D_PostEvent.absorbed gameEnv (keyDown 30 97) startState = false
      ∧ (D_PostEvent gameEnv (keyDown 30 97) startState).events startState.eventhead
          = keyDown 30 97
      ∧ (D_PostEvent gameEnv (keyDown 30 97) startState).eventhead
          = (startState.eventhead + 1) % gameEnv.MAXEVENTS
      ∧ (D_PostEvent gameEnv (keyDown 30 97) startState).eventtail = startState.eventtail
      ∧ (∀ i, i ≠ startState.eventhead →
          (D_PostEvent gameEnv (keyDown 30 97) startState).events i = startState.events i)
      ∧ (startState.eventhead < gameEnv.MAXEVENTS →
          (D_PostEvent gameEnv (keyDown 30 97) startState).eventhead < gameEnv.MAXEVENTS) :=
  ⟨by decide, by decide,
    C6_post_event_stores gameEnv 7 (by decide) (keyDown 30 97) startState (by decide) (by decide)⟩

/-- C9. Pre-dispatch absorption: when `sysCallbacks.DispatchEvent` is present
and returns true for the record, `D_PostEvent` leaves the buffer and both
cursors unchanged. -/
theorem C9_absorbed_not_stored (env : Env W) (ev : event_t) (s : State W)
    (hook : event_t → W → Bool × W)
    (hpresent : env.sysCallbacks.DispatchEvent = some hook)
    (hclaims : (hook ev s.ext.world).1 = true) :
    (D_PostEvent env ev s).events = s.events
      ∧ (D_PostEvent env ev s).eventhead = s.eventhead
      ∧ (D_PostEvent env ev s).eventtail = s.eventtail := by
  apply D_PostEvent_queue_of_absorbed
  simp [D_PostEvent.absorbed, hpresent, hclaims]

/-- C9, at a concrete input: a front-end hook that claims a key-down. -/
theorem C9_absorbed_not_stored_witness :
    headlessEnv.sysCallbacks.DispatchEvent = some claimsAll
      ∧ (claimsAll (keyDown 30 97) startState.ext.world).1 = true
      ∧ (D_PostEvent headlessEnv (keyDown 30 97) startState).events = startState.events
      ∧ (D_PostEvent headlessEnv (keyDown 30 97) startState).eventhead = startState.eventhead
      ∧ (D_PostEvent headlessEnv (keyDown 30 97) startState).eventtail = startState.eventtail :=
  ⟨rfl, rfl, C9_absorbed_not_stored headlessEnv (keyDown 30 97) startState claimsAll rfl rfl⟩

/-- C4. Evaluation of the code: at program start (zeroed buffer, both cursors 0,
no pre-dispatch hook) two device-change records posted back to back are both
stored, in slots 0 and 1, and `eventhead` advances by two; three in a row are
all stored and `eventhead` advances by three.  The duplicate test reads the
slot about to be written, not the slot written last. -/
theorem C4_device_changes_not_collapsed :
    (postAll gameEnv [deviceChange, deviceChange] startState).eventhead = 2
      ∧ (postAll gameEnv [deviceChange, deviceChange] startState).eventtail = 0
      ∧ (postAll gameEnv [deviceChange, deviceChange] startState).events 0 = deviceChange
      ∧ (postAll gameEnv [deviceChange, deviceChange] startState).events 1 = deviceChange
      ∧ queueLength gameEnv (postAll gameEnv [deviceChange, deviceChange] startState) = 2
      ∧ (postAll gameEnv [deviceChange, deviceChange, deviceChange] startState).eventhead = 3
      ∧ queueLength gameEnv
          (postAll gameEnv [deviceChange, deviceChange, deviceChange] startState) = 3 := by
  decide

/-- C10. Evaluation of the code: the Generic Input View of a key-down with scan
code 65 and character code 97 has `KeyScan = 65`, `KeyChar = 97`, zero mouse
fields, and `KeyString` the one-character text of the scan code (character 65,
"A"), not of the character code (character 97, "a"). -/
theorem C10_key_string_from_scan_code :
    FInputEvent.construct (keyDown 65 97)
        = some { Type_ := EGenericEvent.EV_KeyDown, KeyScan := 65, KeyString := [65],
                 KeyChar := 97, MouseX := 0, MouseY := 0 }
      ∧ (FInputEvent.construct (keyDown 65 97)).map (fun v => v.KeyString)
          ≠ some (FString.ofChar 97) := by
  decide

/-- The Generic Input View of any key-down or key-up record: type, scan code
and character code are copied, the mouse fields are zero, and the text is the
one-character text of `data1`. -/
theorem FInputEvent_key (ev : event_t)
    (h : ev.type = EGenericEvent.EV_KeyDown ∨ ev.type = EGenericEvent.EV_KeyUp) :
    FInputEvent.construct ev
      = some { Type_ := ev.type, KeyScan := ev.data1, KeyString := FString.ofChar ev.data1,
               KeyChar := ev.data2, MouseX := 0, MouseY := 0 } := by
  rcases h with h | h <;> simp [FInputEvent.construct, h]

/-! ## One record through the responder chain -/

theorem gameplay_fst (env : Env W) (slot : Nat) (ev : event_t) (x : Ext W) (l : Locals) :
    (D_ProcessEvents.gameplay env slot ev x l).1 = (x.G_Responder env slot ev).2 := by
  unfold D_ProcessEvents.gameplay
  simp only []
  split <;> rfl

theorem route_of_skipped (env : Env W) (slot : Nat) (ev : event_t) (x : Ext W) (l : Locals)
    (h : (ev.type = EGenericEvent.EV_KeyUp ∧ ev.data1 ∈ l.keywasdown)
      ∨ ev.type = EGenericEvent.EV_None) :
    (D_ProcessEvents.route env slot ev x l).1 = x := by
  unfold D_ProcessEvents.route
  rcases h with h | h
  · rw [if_pos h]
  · split
    · rfl
    · rfl

/-- The calls made for a record that is neither deferred nor of type
`EV_None`, from the gate of lines 90-92 on. -/
theorem route_calls (env : Env W) (slot : Nat) (ev : event_t) (x : Ext W) (l : Locals)
    (hdefer : ¬ (ev.type = EGenericEvent.EV_KeyUp ∧ ev.data1 ∈ l.keywasdown))
    (hnone : ev.type ≠ EGenericEvent.EV_None) :
    (D_ProcessEvents.route env slot ev x l).1.calls
      = (D_ProcessEvents.escape env slot ev (D_ProcessEvents.refresh env slot ev x)).2.calls
        ++ (if (D_ProcessEvents.escape env slot ev (D_ProcessEvents.refresh env slot ev x)).1 = true
              ∨ env.gamestate
                  (D_ProcessEvents.escape env slot ev
                    (D_ProcessEvents.refresh env slot ev x)).2.world = gamestate_t.GS_INTRO
            then
              [Call.G_Responder slot ev
                (env.sysCallbacks.G_Responder ev
                  (D_ProcessEvents.escape env slot ev
                    (D_ProcessEvents.refresh env slot ev x)).2.world).1]
            else
              chainSpec env slot ev
                (D_ProcessEvents.escape env slot ev
                  (D_ProcessEvents.refresh env slot ev x)).2.world) := by
  unfold D_ProcessEvents.route
  rw [if_neg hdefer, if_neg hnone]
  unfold D_ProcessEvents.ui
  generalize D_ProcessEvents.escape env slot ev (D_ProcessEvents.refresh env slot ev x) = e
  obtain ⟨b, y⟩ := e
  cases b with
  | true => simp [Ext.G_Responder, gameplay_fst]
  | false =>
    by_cases hg : env.gamestate y.world = gamestate_t.GS_INTRO
    · simp [hg, Ext.G_Responder, gameplay_fst]
    · cases hc : (env.C_Responder ev y.world).1 with
      | true => simp [hg, hc, Ext.C_Responder, chainSpec]
      | false =>
        cases hm : (env.M_Responder ev (env.C_Responder ev y.world).2).1 with
        | true => simp [hg, hc, hm, Ext.C_Responder, Ext.M_Responder, chainSpec]
        | false =>
          simp [hg, hc, hm, Ext.C_Responder, Ext.M_Responder, Ext.G_Responder, chainSpec, gameplay_fst]

theorem escape_fst_iff (env : Env W) (slot : Nat) (ev : event_t) (x : Ext W) :
    (D_ProcessEvents.escape env slot ev x).1 = true
      ↔ (ev.type = EGenericEvent.EV_KeyDown ∧ ev.data1 = env.KEY_ESCAPE
          ∧ ∃ hook, env.sysCallbacks.WantEscape = some hook ∧ (hook x.world).1 = true) := by
  unfold D_ProcessEvents.escape
  by_cases h : ev.type = EGenericEvent.EV_KeyDown ∧ ev.data1 = env.KEY_ESCAPE
  · rw [if_pos h]
    unfold Ext.WantEscape
    cases hw : env.sysCallbacks.WantEscape with
    | none => simp
    | some hook => simp [h.1, h.2]
  · rw [if_neg h]
    constructor
    · intro hf
      simp at hf
    · rintro ⟨h1, h2, _⟩
      exact absurd ⟨h1, h2⟩ h

/-- Up to the gate of lines 90-92 the only calls made for a record are the
device-list refresh and `WantEscape`: nothing is offered to a responder. -/
theorem gate_calls (env : Env W) (slot : Nat) (ev : event_t) (x : Ext W) :
    ∃ pre, (D_ProcessEvents.escape env slot ev (D_ProcessEvents.refresh env slot ev x)).2.calls
        = x.calls ++ pre
      ∧ (∀ c ∈ pre, c.offer = none ∧ c.isUi = false ∧ c.slotOf = some slot
          ∧ ∀ sl e r, c ≠ Call.G_Responder sl e r) := by
  unfold D_ProcessEvents.escape D_ProcessEvents.refresh Ext.WantEscape Ext.UpdateJoystickMenu
  by_cases h1 : ev.type = EGenericEvent.EV_DeviceChange
  · refine ⟨[Call.UpdateJoystickMenu slot], ?_, ?_⟩
    · have h2 : ¬ (ev.type = EGenericEvent.EV_KeyDown ∧ ev.data1 = env.KEY_ESCAPE) := by
        rw [h1]; simp
      rw [if_neg h2, if_pos h1]
    · intro c hc
      simp at hc
      subst hc
      simp [Call.offer, Call.isUi, Call.slotOf]
  · by_cases h2 : ev.type = EGenericEvent.EV_KeyDown ∧ ev.data1 = env.KEY_ESCAPE
    · cases hw : env.sysCallbacks.WantEscape with
      | none =>
        refine ⟨[], ?_, by simp⟩
        simp [h1, h2]
      | some hook =>
        refine ⟨[Call.WantEscape slot (hook x.world).1], ?_, ?_⟩
        · simp [h1, h2]
        · intro c hc
          simp at hc
          subst hc
          simp [Call.offer, Call.isUi, Call.slotOf]
    · refine ⟨[], ?_, by simp⟩
      rw [if_neg h2, if_neg h1]
      simp

theorem chainSpec_exists_ui (env : Env W) (slot : Nat) (ev : event_t) (w : W) :
    ∃ c ∈ chainSpec env slot ev w, c.isUi = true :=
  ⟨Call.C_Responder slot ev (env.C_Responder ev w).1, by simp [chainSpec], rfl⟩

/-- C7. Responder chain order: a record at `eventtail` that is dispatched and
reaches normal routing (Escape not intercepted, `gamestate` not `GS_INTRO`) is
offered to `C_Responder` first, to `M_Responder` if and only if the console
declined, to `sysCallbacks.G_Responder` if and only if both declined, each at
most once; before that nothing is offered to any responder. -/
theorem C7_responder_chain_order (env : Env W) (s : State W) (l : Locals)
    (hdefer : ¬ ((s.events s.eventtail).type = EGenericEvent.EV_KeyUp
      ∧ (s.events s.eventtail).data1 ∈ l.keywasdown))
    (hnone : (s.events s.eventtail).type ≠ EGenericEvent.EV_None)
    (hesc : (D_ProcessEvents.atGate env s).1 = false)
    (hgs : env.gamestate (D_ProcessEvents.atGate env s).2.world ≠ gamestate_t.GS_INTRO) :
    ∃ pre, (∀ c ∈ pre, c.offer = none)
      ∧ (D_ProcessEvents.body env s l).1.ext.calls
        = s.ext.calls ++ pre
          ++ chainSpec env s.eventtail (s.events s.eventtail)
              (D_ProcessEvents.atGate env s).2.world := by
  obtain ⟨pre, hpre, hp⟩ := gate_calls env s.eventtail (s.events s.eventtail) s.ext
  refine ⟨pre, fun c hc => (hp c hc).1, ?_⟩
  have h := route_calls env s.eventtail (s.events s.eventtail) s.ext l hdefer hnone
  unfold D_ProcessEvents.atGate at hesc hgs ⊢
  rw [hpre] at h
  simp only [D_ProcessEvents.body]
  rw [h, if_neg]
  simp [hesc, hgs]

/-- C7, at a concrete input: a key-down at the read cursor that all three
responders see in turn. -/
theorem C7_responder_chain_order_witness :
    ¬ ((oneKeyDown.events oneKeyDown.eventtail).type = EGenericEvent.EV_KeyUp
        ∧ (oneKeyDown.events oneKeyDown.eventtail).data1 ∈ freshLocals.keywasdown)
      ∧ (oneKeyDown.events oneKeyDown.eventtail).type ≠ EGenericEvent.EV_None
      ∧ (D_ProcessEvents.atGate gameEnv oneKeyDown).1 = false
      ∧ gameEnv.gamestate (D_ProcessEvents.atGate gameEnv oneKeyDown).2.world
          ≠ gamestate_t.GS_INTRO
      ∧ (∃ pre, (∀ c ∈ pre, c.offer = none)
        ∧ (D_ProcessEvents.body gameEnv oneKeyDown freshLocals).1.ext.calls
          = oneKeyDown.ext.calls ++ pre
            ++ chainSpec gameEnv oneKeyDown.eventtail (oneKeyDown.events oneKeyDown.eventtail)
                (D_ProcessEvents.atGate gameEnv oneKeyDown).2.world) :=
  ⟨by decide, by decide, by decide, by decide,
    C7_responder_chain_order gameEnv oneKeyDown freshLocals
      (by decide) (by decide) (by decide) (by decide)⟩

/-- C8. Routing skip: for a dispatched record at `eventtail`, the console and
the menu are both skipped if and only if `gamestate` is `GS_INTRO` or the game
intercepted Escape (the record is a key-down of `KEY_ESCAPE`, `WantEscape` is
present and returned true); when they are skipped the record is still offered
to `sysCallbacks.G_Responder`, and otherwise (in particular for an Escape
key-down when `WantEscape` is absent or returns false, outside `GS_INTRO`) it
goes through the console-menu-gameplay chain. -/
theorem C8_routing_skip (env : Env W) (s : State W) (l : Locals)
    (hdefer : ¬ ((s.events s.eventtail).type = EGenericEvent.EV_KeyUp
      ∧ (s.events s.eventtail).data1 ∈ l.keywasdown))
    (hnone : (s.events s.eventtail).type ≠ EGenericEvent.EV_None) :
    ((D_ProcessEvents.atGate env s).1 = true
        ↔ ((s.events s.eventtail).type = EGenericEvent.EV_KeyDown
          ∧ (s.events s.eventtail).data1 = env.KEY_ESCAPE
          ∧ ∃ hook, env.sysCallbacks.WantEscape = some hook
            ∧ (hook (D_ProcessEvents.refresh env s.eventtail
                (s.events s.eventtail) s.ext).world).1 = true))
      ∧ ∃ new, (D_ProcessEvents.body env s l).1.ext.calls = s.ext.calls ++ new
        ∧ ((∀ c ∈ new, c.isUi = false)
            ↔ ((D_ProcessEvents.atGate env s).1 = true
              ∨ env.gamestate (D_ProcessEvents.atGate env s).2.world = gamestate_t.GS_INTRO))
        ∧ (((D_ProcessEvents.atGate env s).1 = true
              ∨ env.gamestate (D_ProcessEvents.atGate env s).2.world = gamestate_t.GS_INTRO)
            → Call.G_Responder s.eventtail (s.events s.eventtail)
                (env.sysCallbacks.G_Responder (s.events s.eventtail)
                  (D_ProcessEvents.atGate env s).2.world).1 ∈ new)
        ∧ (¬ ((D_ProcessEvents.atGate env s).1 = true
              ∨ env.gamestate (D_ProcessEvents.atGate env s).2.world = gamestate_t.GS_INTRO)
            → ∃ pre, (∀ c ∈ pre, c.offer = none)
              ∧ new = pre ++ chainSpec env s.eventtail (s.events s.eventtail)
                  (D_ProcessEvents.atGate env s).2.world) := by
  refine ⟨escape_fst_iff env _ _ _, ?_⟩
  obtain ⟨pre, hpre, hp⟩ := gate_calls env s.eventtail (s.events s.eventtail) s.ext
  have h := route_calls env s.eventtail (s.events s.eventtail) s.ext l hdefer hnone
  rw [hpre] at h
  unfold D_ProcessEvents.atGate
  simp only [D_ProcessEvents.body]
  by_cases hskip : (D_ProcessEvents.escape env s.eventtail (s.events s.eventtail)
      (D_ProcessEvents.refresh env s.eventtail (s.events s.eventtail) s.ext)).1 = true
      ∨ env.gamestate (D_ProcessEvents.escape env s.eventtail (s.events s.eventtail)
        (D_ProcessEvents.refresh env s.eventtail (s.events s.eventtail) s.ext)).2.world
          = gamestate_t.GS_INTRO
  · rw [if_pos hskip] at h
    refine ⟨_, by rw [h, List.append_assoc], ?_, ?_, ?_⟩
    · refine ⟨fun _ => hskip, fun _ c hc => ?_⟩
      rcases List.mem_append.1 hc with hc | hc
      · exact (hp c hc).2.1
      · simp at hc
        subst hc
        rfl
    · intro _
      simp
    · intro hn
      exact absurd hskip hn
  · rw [if_neg hskip] at h
    refine ⟨_, by rw [h, List.append_assoc], ?_, ?_, ?_⟩
    · refine ⟨fun hall => ?_, fun hs => absurd hs hskip⟩
      obtain ⟨c, hc, hui⟩ := chainSpec_exists_ui env s.eventtail (s.events s.eventtail)
        (D_ProcessEvents.escape env s.eventtail (s.events s.eventtail)
          (D_ProcessEvents.refresh env s.eventtail (s.events s.eventtail) s.ext)).2.world
      have := hall c (List.mem_append_right _ hc)
      rw [hui] at this
      exact absurd this (by simp)
    · intro hs
      exact absurd hs hskip
    · intro _
      exact ⟨pre, fun c hc => (hp c hc).1, rfl⟩

/-- C8, at a concrete input: an Escape key-down that the game intercepts goes
to the gameplay responder only. -/
theorem C8_routing_skip_witness :
    ¬ ((oneEscape.events oneEscape.eventtail).type = EGenericEvent.EV_KeyUp
        ∧ (oneEscape.events oneEscape.eventtail).data1 ∈ freshLocals.keywasdown)
      ∧ (oneEscape.events oneEscape.eventtail).type ≠ EGenericEvent.EV_None
      ∧ (D_ProcessEvents.atGate escapeEnv oneEscape).1 = true
      ∧ (D_ProcessEvents.body escapeEnv oneEscape freshLocals).1.ext.calls
          = [Call.WantEscape 0 true, Call.G_Responder 0 (keyDown 1 27) true]
      ∧ (((D_ProcessEvents.atGate escapeEnv oneEscape).1 = true
          ↔ ((oneEscape.events oneEscape.eventtail).type = EGenericEvent.EV_KeyDown
            ∧ (oneEscape.events oneEscape.eventtail).data1 = escapeEnv.KEY_ESCAPE
            ∧ ∃ hook, escapeEnv.sysCallbacks.WantEscape = some hook
              ∧ (hook (D_ProcessEvents.refresh escapeEnv oneEscape.eventtail
                  (oneEscape.events oneEscape.eventtail) oneEscape.ext).world).1 = true))
        ∧ ∃ new, (D_ProcessEvents.body escapeEnv oneEscape freshLocals).1.ext.calls
            = oneEscape.ext.calls ++ new
          ∧ ((∀ c ∈ new, c.isUi = false)
              ↔ ((D_ProcessEvents.atGate escapeEnv oneEscape).1 = true
                ∨ escapeEnv.gamestate (D_ProcessEvents.atGate escapeEnv oneEscape).2.world
                    = gamestate_t.GS_INTRO))
          ∧ (((D_ProcessEvents.atGate escapeEnv oneEscape).1 = true
                ∨ escapeEnv.gamestate (D_ProcessEvents.atGate escapeEnv oneEscape).2.world
                    = gamestate_t.GS_INTRO)
              → Call.G_Responder oneEscape.eventtail (oneEscape.events oneEscape.eventtail)
                  (escapeEnv.sysCallbacks.G_Responder (oneEscape.events oneEscape.eventtail)
                    (D_ProcessEvents.atGate escapeEnv oneEscape).2.world).1 ∈ new)
          ∧ (¬ ((D_ProcessEvents.atGate escapeEnv oneEscape).1 = true
                ∨ escapeEnv.gamestate (D_ProcessEvents.atGate escapeEnv oneEscape).2.world
                    = gamestate_t.GS_INTRO)
              → ∃ pre, (∀ c ∈ pre, c.offer = none)
                ∧ new = pre ++ chainSpec escapeEnv oneEscape.eventtail
                    (oneEscape.events oneEscape.eventtail)
                    (D_ProcessEvents.atGate escapeEnv oneEscape).2.world)) :=
  ⟨by decide, by decide, by decide, by decide,
    C8_routing_skip escapeEnv oneEscape freshLocals (by decide) (by decide)⟩

/-! ## One record: summary of `route` -/

theorem offers_append (a b : List Call) : offers (a ++ b) = offers a ++ offers b := by
  simp [offers, List.filterMap_append]

theorem offers_eq_nil {a : List Call} (h : ∀ c ∈ a, c.offer = none) : offers a = [] := by
  induction a with
  | nil => rfl
  | cons c t ih =>
    have hc := h c (List.mem_cons_self _ _)
    have ht := ih (fun c hc => h c (List.mem_cons_of_mem _ hc))
    simp only [offers] at ht ⊢
    rw [List.filterMap_cons, hc]
    exact ht

theorem mem_offers {a : List Call} {q : Nat × event_t} :
    q ∈ offers a ↔ ∃ c ∈ a, c.offer = some q := by
  simp [offers, List.mem_filterMap]


theorem route_skipped_locals (env : Env W) (slot : Nat) (ev : event_t) (x : Ext W) (l : Locals)
    (h : deferredNow ev l ∨ ev.type = EGenericEvent.EV_None) :
    (D_ProcessEvents.route env slot ev x l).2
      = if deferredNow ev l then { l with delayedevents := l.delayedevents ++ [slot] } else l := by
  unfold D_ProcessEvents.route
  unfold deferredNow at h ⊢
  by_cases hd : ev.type = EGenericEvent.EV_KeyUp ∧ ev.data1 ∈ l.keywasdown
  · rw [if_pos hd, if_pos hd]
  · rw [if_neg hd, if_neg hd]
    rcases h with h | h
    · exact absurd h hd
    · rw [if_pos h]

theorem route_dispatch_locals (env : Env W) (slot : Nat) (ev : event_t) (x : Ext W) (l : Locals)
    (hdefer : ¬ deferredNow ev l) (hnone : ev.type ≠ EGenericEvent.EV_None) :
    (D_ProcessEvents.route env slot ev x l).2.delayedevents = l.delayedevents
      ∧ ∀ K, K ∈ (D_ProcessEvents.route env slot ev x l).2.keywasdown
          ↔ (K ∈ l.keywasdown ∨ (ev.type = EGenericEvent.EV_KeyDown ∧ ev.data1 = K
              ∧ Call.G_Responder slot ev true
                  ∈ newCalls x (D_ProcessEvents.route env slot ev x l).1)) := by
  have hcalls := route_calls env slot ev x l hdefer hnone
  obtain ⟨pre, hpre, hp⟩ := gate_calls env slot ev x
  have hG : ∀ r, Call.G_Responder slot ev r ∉ pre := fun r hr => (hp _ hr).2.2.2 slot ev r rfl
  rw [hpre] at hcalls
  simp only [newCalls, hcalls, List.append_assoc, List.drop_left]
  clear hcalls hpre
  unfold D_ProcessEvents.route
  unfold deferredNow at hdefer
  rw [if_neg hdefer, if_neg hnone]
  unfold D_ProcessEvents.ui D_ProcessEvents.gameplay
  generalize D_ProcessEvents.escape env slot ev (D_ProcessEvents.refresh env slot ev x) = e
  obtain ⟨b, y⟩ := e
  cases b with
  | true =>
    simp only [Ext.G_Responder]
    by_cases hk : ev.type = EGenericEvent.EV_KeyDown
    · cases hg : (env.sysCallbacks.G_Responder ev y.world).1 <;> simp [hk, hg, hG]
      intro K; rw [or_comm, eq_comm]
    · simp [hk]
  | false =>
    by_cases hgs : env.gamestate y.world = gamestate_t.GS_INTRO
    · simp only [Ext.G_Responder]
      by_cases hk : ev.type = EGenericEvent.EV_KeyDown
      · cases hg : (env.sysCallbacks.G_Responder ev y.world).1 <;> simp [hk, hg, hG, hgs]
        intro K; rw [or_comm, eq_comm]
      · simp [hk, hgs]
    · cases hc : (env.C_Responder ev y.world).1 with
      | true => simp [hgs, hc, Ext.C_Responder, chainSpec, hG]
      | false =>
        cases hm : (env.M_Responder ev (env.C_Responder ev y.world).2).1 with
        | true => simp [hgs, hc, hm, Ext.C_Responder, Ext.M_Responder, chainSpec, hG]
        | false =>
          by_cases hk : ev.type = EGenericEvent.EV_KeyDown
          · cases hg : (env.sysCallbacks.G_Responder ev
                (env.M_Responder ev (env.C_Responder ev y.world).2).2).1 <;>
              simp [hgs, hc, hm, hk, hg, Ext.C_Responder, Ext.M_Responder, Ext.G_Responder,
                chainSpec, hG]
            intro K; rw [or_comm, eq_comm]
          · simp [hgs, hc, hm, hk, Ext.C_Responder, Ext.M_Responder, Ext.G_Responder,
              chainSpec, hG]

theorem chainSpec_mem (env : Env W) (slot : Nat) (ev : event_t) (w : W) :
    ∀ c ∈ chainSpec env slot ev w, c.slotOf = some slot ∧ c.offer = some (slot, ev) := by
  intro c hc
  unfold chainSpec at hc
  by_cases h1 : (env.C_Responder ev w).1 = true
  · simp [h1] at hc
    subst hc
    exact ⟨rfl, rfl⟩
  · by_cases h2 : (env.M_Responder ev (env.C_Responder ev w).2).1 = true
    · simp [h1, h2] at hc
      rcases hc with hc | hc <;> subst hc <;> exact ⟨rfl, rfl⟩
    · simp [h1, h2] at hc
      rcases hc with hc | hc | hc <;> subst hc <;> exact ⟨rfl, rfl⟩

/-- The calls made for one record, all facts in one place: they extend the log,
they all carry the slot of the record, every offer among them is an offer of
that very record, and there is none at all for a deferred or `EV_None` record
and at least one offer for any other record. -/
theorem route_new (env : Env W) (slot : Nat) (ev : event_t) (x : Ext W) (l : Locals) :
    (D_ProcessEvents.route env slot ev x l).1.calls
        = x.calls ++ newCalls x (D_ProcessEvents.route env slot ev x l).1
      ∧ (∀ c ∈ newCalls x (D_ProcessEvents.route env slot ev x l).1, c.slotOf = some slot)
      ∧ (∀ q ∈ offers (newCalls x (D_ProcessEvents.route env slot ev x l).1), q = (slot, ev))
      ∧ ((deferredNow ev l ∨ ev.type = EGenericEvent.EV_None)
          → newCalls x (D_ProcessEvents.route env slot ev x l).1 = [])
      ∧ (¬ (deferredNow ev l ∨ ev.type = EGenericEvent.EV_None)
          → offers (newCalls x (D_ProcessEvents.route env slot ev x l).1) ≠ []) := by
  by_cases hskip : deferredNow ev l ∨ ev.type = EGenericEvent.EV_None
  · have h1 : (D_ProcessEvents.route env slot ev x l).1 = x :=
      route_of_skipped env slot ev x l hskip
    have h2 : newCalls x (D_ProcessEvents.route env slot ev x l).1 = [] := by
      rw [h1]; simp [newCalls]
    rw [h2]
    refine ⟨by rw [h1]; simp, by simp, by simp [offers], fun _ => rfl, fun h => absurd hskip h⟩
  · have hdefer : ¬ deferredNow ev l := fun h => hskip (Or.inl h)
    have hnone : ev.type ≠ EGenericEvent.EV_None := fun h => hskip (Or.inr h)
    have hcalls := route_calls env slot ev x l hdefer hnone
    obtain ⟨pre, hpre, hp⟩ := gate_calls env slot ev x
    rw [hpre, List.append_assoc] at hcalls
    have hex : ∃ tl, (D_ProcessEvents.route env slot ev x l).1.calls = x.calls ++ (pre ++ tl)
        ∧ (∀ c ∈ tl, c.slotOf = some slot ∧ c.offer = some (slot, ev)) ∧ tl ≠ [] := by
      refine ⟨_, hcalls, ?_, ?_⟩
      · intro c hc
        split at hc
        · simp at hc
          subst hc
          exact ⟨rfl, rfl⟩
        · exact chainSpec_mem env slot ev _ c hc
      · split
        · simp
        · simp [chainSpec]
    clear hcalls
    obtain ⟨tl, hcalls, htl, hne⟩ := hex
    have hnew : newCalls x (D_ProcessEvents.route env slot ev x l).1 = pre ++ tl := by
      unfold newCalls
      rw [hcalls, List.drop_left]
    rw [hnew]
    refine ⟨hcalls, ?_, ?_, fun h => absurd h hskip, fun _ => ?_⟩
    · intro c hc
      rcases List.mem_append.1 hc with hc | hc
      · exact (hp c hc).2.2.1
      · exact (htl c hc).1
    · intro q hq
      rw [offers_append, offers_eq_nil (fun c hc => (hp c hc).1), List.nil_append] at hq
      obtain ⟨c, hc, hcq⟩ := mem_offers.1 hq
      rw [(htl c hc).2] at hcq
      exact (Option.some.inj hcq).symm
    · rw [offers_append, offers_eq_nil (fun c hc => (hp c hc).1), List.nil_append]
      cases tl with
      | nil => exact absurd rfl hne
      | cons c t =>
        have := (htl c (List.mem_cons_self _ _)).2
        simp [offers, List.filterMap_cons, this]

theorem route_delayed (env : Env W) (slot : Nat) (ev : event_t) (x : Ext W) (l : Locals) :
    (D_ProcessEvents.route env slot ev x l).2.delayedevents
      = l.delayedevents ++ (if deferredNow ev l then [slot] else []) := by
  by_cases hskip : deferredNow ev l ∨ ev.type = EGenericEvent.EV_None
  · rw [route_skipped_locals env slot ev x l hskip]
    split <;> simp
  · have hdefer : ¬ deferredNow ev l := fun h => hskip (Or.inl h)
    have hnone : ev.type ≠ EGenericEvent.EV_None := fun h => hskip (Or.inr h)
    rw [(route_dispatch_locals env slot ev x l hdefer hnone).1, if_neg hdefer]
    simp

theorem route_keywasdown (env : Env W) (slot : Nat) (ev : event_t) (x : Ext W) (l : Locals)
    (K : Int) :
    K ∈ (D_ProcessEvents.route env slot ev x l).2.keywasdown
      ↔ (K ∈ l.keywasdown ∨ (ev.type = EGenericEvent.EV_KeyDown ∧ ev.data1 = K
          ∧ Call.G_Responder slot ev true
              ∈ newCalls x (D_ProcessEvents.route env slot ev x l).1)) := by
  by_cases hskip : deferredNow ev l ∨ ev.type = EGenericEvent.EV_None
  · rw [route_skipped_locals env slot ev x l hskip,
      (route_new env slot ev x l).2.2.2.1 hskip]
    split <;> simp
  · have hdefer : ¬ deferredNow ev l := fun h => hskip (Or.inl h)
    have hnone : ev.type ≠ EGenericEvent.EV_None := fun h => hskip (Or.inr h)
    exact (route_dispatch_locals env slot ev x l hdefer hnone).2 K

/-! ## A whole pass, record by record -/

theorem newCalls_of_append {a b : Ext W} {n : List Call} (h : b.calls = a.calls ++ n) :
    newCalls a b = n := by
  unfold newCalls
  rw [h, List.drop_left]

theorem newDelayed_of_append {a b : Locals} {d : List Nat}
    (h : b.delayedevents = a.delayedevents ++ d) : newDelayed a b = d := by
  unfold newDelayed
  rw [h, List.drop_left]

theorem runRecs_cons (env : Env W) (r : Nat × event_t) (rest : List (Nat × event_t))
    (x : Ext W) (l : Locals) :
    runRecs env (r :: rest) (x, l)
      = runRecs env rest
          ((D_ProcessEvents.route env r.1 r.2 x l).1, (D_ProcessEvents.route env r.1 r.2 x l).2) :=
  rfl

theorem runRecs_calls (env : Env W) (recs : List (Nat × event_t)) (x : Ext W) (l : Locals) :
    (runRecs env recs (x, l)).1.calls = x.calls ++ newCalls x (runRecs env recs (x, l)).1 := by
  have h : ∃ n, (runRecs env recs (x, l)).1.calls = x.calls ++ n := by
    induction recs generalizing x l with
    | nil => exact ⟨[], by simp [runRecs]⟩
    | cons r rest ih =>
      obtain ⟨n, hn⟩ := ih (D_ProcessEvents.route env r.1 r.2 x l).1
        (D_ProcessEvents.route env r.1 r.2 x l).2
      refine ⟨newCalls x (D_ProcessEvents.route env r.1 r.2 x l).1 ++ n, ?_⟩
      rw [runRecs_cons, hn, (route_new env r.1 r.2 x l).1, List.append_assoc]
  obtain ⟨n, hn⟩ := h
  rw [newCalls_of_append hn, hn]

theorem runRecs_delayed (env : Env W) (recs : List (Nat × event_t)) (x : Ext W) (l : Locals) :
    (runRecs env recs (x, l)).2.delayedevents
      = l.delayedevents ++ newDelayed l (runRecs env recs (x, l)).2 := by
  have h : ∃ d, (runRecs env recs (x, l)).2.delayedevents = l.delayedevents ++ d := by
    induction recs generalizing x l with
    | nil => exact ⟨[], by simp [runRecs]⟩
    | cons r rest ih =>
      obtain ⟨d, hd⟩ := ih (D_ProcessEvents.route env r.1 r.2 x l).1
        (D_ProcessEvents.route env r.1 r.2 x l).2
      refine ⟨(if deferredNow r.2 l then [r.1] else []) ++ d, ?_⟩
      rw [runRecs_cons, hd, route_delayed, List.append_assoc]
  obtain ⟨d, hd⟩ := h
  rw [newDelayed_of_append hd, hd]

theorem newCalls_cons (env : Env W) (r : Nat × event_t) (rest : List (Nat × event_t))
    (x : Ext W) (l : Locals) :
    newCalls x (runRecs env (r :: rest) (x, l)).1
      = newCalls x (D_ProcessEvents.route env r.1 r.2 x l).1
        ++ newCalls (D_ProcessEvents.route env r.1 r.2 x l).1
            (runRecs env rest ((D_ProcessEvents.route env r.1 r.2 x l).1,
              (D_ProcessEvents.route env r.1 r.2 x l).2)).1 := by
  apply newCalls_of_append
  rw [runRecs_cons, runRecs_calls, (route_new env r.1 r.2 x l).1, List.append_assoc]

theorem newDelayed_cons (env : Env W) (r : Nat × event_t) (rest : List (Nat × event_t))
    (x : Ext W) (l : Locals) :
    newDelayed l (runRecs env (r :: rest) (x, l)).2
      = (if deferredNow r.2 l then [r.1] else [])
        ++ newDelayed (D_ProcessEvents.route env r.1 r.2 x l).2
            (runRecs env rest ((D_ProcessEvents.route env r.1 r.2 x l).1,
              (D_ProcessEvents.route env r.1 r.2 x l).2)).2 := by
  apply newDelayed_of_append
  rw [runRecs_cons, runRecs_delayed, route_delayed, List.append_assoc]

/-- The pointers pushed during a pass are slots of the records read, in the
order in which the records are read. -/
theorem newDelayed_sublist (env : Env W) (recs : List (Nat × event_t)) (x : Ext W)
    (l : Locals) :
    (newDelayed l (runRecs env recs (x, l)).2).Sublist (recs.map Prod.fst) := by
  induction recs generalizing x l with
  | nil => simp [runRecs, newDelayed]
  | cons r rest ih =>
    rw [newDelayed_cons, List.map_cons]
    have ih1 := ih (D_ProcessEvents.route env r.1 r.2 x l).1
      (D_ProcessEvents.route env r.1 r.2 x l).2
    split
    · exact List.Sublist.cons₂ _ ih1
    · exact List.Sublist.cons _ ih1

/-- Every call of a pass carries the slot of one of the records read. -/
theorem newCalls_slot (env : Env W) (recs : List (Nat × event_t)) (x : Ext W) (l : Locals) :
    ∀ c ∈ newCalls x (runRecs env recs (x, l)).1, ∃ σ ∈ recs.map Prod.fst, c.slotOf = some σ := by
  induction recs generalizing x l with
  | nil => simp [runRecs, newCalls]
  | cons r rest ih =>
    intro c hc
    rw [newCalls_cons] at hc
    rcases List.mem_append.1 hc with hc | hc
    · exact ⟨r.1, by simp, (route_new env r.1 r.2 x l).2.1 c hc⟩
    · obtain ⟨σ, hσ, h⟩ := ih _ _ c hc
      exact ⟨σ, by simp only [List.map_cons]; exact List.mem_cons_of_mem _ hσ, h⟩

theorem not_mem_of_slot_not_mem {recs : List (Nat × event_t)} {r : Nat × event_t}
    (h : r.1 ∉ recs.map Prod.fst) : ∀ p ∈ recs, p.1 ≠ r.1 := by
  intro p hp he
  exact h (he ▸ List.mem_map_of_mem Prod.fst hp)

/-- Calls are made only for records that are neither of type `EV_None` nor
deferred. -/
theorem newCalls_dispatched_only (env : Env W) (recs : List (Nat × event_t))
    (hnd : (recs.map Prod.fst).Nodup) (x : Ext W) (l : Locals) :
    ∀ c ∈ newCalls x (runRecs env recs (x, l)).1,
      ∃ p ∈ recs, c.slotOf = some p.1 ∧ p.2.type ≠ EGenericEvent.EV_None
        ∧ p.1 ∉ newDelayed l (runRecs env recs (x, l)).2 := by
  induction recs generalizing x l with
  | nil => simp [runRecs, newCalls]
  | cons r rest ih =>
    rw [List.map_cons, List.nodup_cons] at hnd
    intro c hc
    rw [newCalls_cons] at hc
    rw [newDelayed_cons]
    have hsub := newDelayed_sublist env rest (D_ProcessEvents.route env r.1 r.2 x l).1
      (D_ProcessEvents.route env r.1 r.2 x l).2
    rcases List.mem_append.1 hc with hc | hc
    · have hskip : ¬ (deferredNow r.2 l ∨ r.2.type = EGenericEvent.EV_None) := by
        intro h
        rw [(route_new env r.1 r.2 x l).2.2.2.1 h] at hc
        simp at hc
      refine ⟨r, List.mem_cons_self _ _, (route_new env r.1 r.2 x l).2.1 c hc,
        fun h => hskip (Or.inr h), ?_⟩
      rw [if_neg (fun h => hskip (Or.inl h)), List.nil_append]
      exact fun h => hnd.1 (hsub.subset h)
    · obtain ⟨p, hp, h1, h2, h3⟩ := ih hnd.2 _ _ c hc
      refine ⟨p, List.mem_cons_of_mem _ hp, h1, h2, ?_⟩
      intro h
      rcases List.mem_append.1 h with h | h
      · split at h
        · simp at h
          exact not_mem_of_slot_not_mem hnd.1 p hp h
        · simp at h
      · exact h3 h

/-- Deferral in a pass over records in distinct slots: a record is pushed to
`delayedevents` exactly when it is a key-up whose key code was already marked
at the start or belongs to an earlier key-down of the pass for which
`sysCallbacks.G_Responder` returned true. -/
theorem deferred_iff (env : Env W) (pre : List (Nat × event_t)) (p : Nat × event_t)
    (post : List (Nat × event_t)) (hnd : ((pre ++ p :: post).map Prod.fst).Nodup)
    (x : Ext W) (l : Locals) :
    p.1 ∈ newDelayed l (runRecs env (pre ++ p :: post) (x, l)).2
      ↔ (p.2.type = EGenericEvent.EV_KeyUp
        ∧ (p.2.data1 ∈ l.keywasdown
          ∨ ∃ q ∈ pre, q.2.type = EGenericEvent.EV_KeyDown ∧ q.2.data1 = p.2.data1
            ∧ Call.G_Responder q.1 q.2 true
                ∈ newCalls x (runRecs env (pre ++ p :: post) (x, l)).1)) := by
  induction pre generalizing x l with
  | nil =>
    rw [List.nil_append] at hnd ⊢
    rw [List.map_cons, List.nodup_cons] at hnd
    have hsub := newDelayed_sublist env post (D_ProcessEvents.route env p.1 p.2 x l).1
      (D_ProcessEvents.route env p.1 p.2 x l).2
    rw [newDelayed_cons, List.mem_append]
    constructor
    · rintro (h | h)
      · split at h
        · rename_i hd
          exact ⟨hd.1, Or.inl hd.2⟩
        · simp at h
      · exact absurd (hsub.subset h) hnd.1
    · rintro ⟨h1, h2 | ⟨q, hq, _⟩⟩
      · left
        rw [if_pos ⟨h1, h2⟩]
        simp
      · simp at hq
  | cons r pre1 ih =>
    rw [List.cons_append] at hnd ⊢
    rw [List.map_cons, List.nodup_cons] at hnd
    have hp : p ∈ pre1 ++ p :: post := by simp
    have hpr : p.1 ≠ r.1 := not_mem_of_slot_not_mem hnd.1 p hp
    have ih1 := ih hnd.2 (D_ProcessEvents.route env r.1 r.2 x l).1
      (D_ProcessEvents.route env r.1 r.2 x l).2
    have hk := route_keywasdown env r.1 r.2 x l p.2.data1
    have htag := (route_new env r.1 r.2 x l).2.1
    have htags := newCalls_slot env (pre1 ++ p :: post) (D_ProcessEvents.route env r.1 r.2 x l).1
      (D_ProcessEvents.route env r.1 r.2 x l).2
    rw [newDelayed_cons, newCalls_cons, List.mem_append]
    constructor
    · rintro (h | h)
      · split at h
        · simp at h
          exact absurd h hpr
        · simp at h
      · obtain ⟨h1, h2⟩ := ih1.1 h
        refine ⟨h1, ?_⟩
        rcases h2 with h2 | ⟨q, hq, hq1, hq2, hq3⟩
        · rcases hk.1 h2 with h3 | ⟨h3, h4, h5⟩
          · exact Or.inl h3
          · exact Or.inr ⟨r, List.mem_cons_self _ _, h3, h4, List.mem_append_left _ h5⟩
        · exact Or.inr ⟨q, List.mem_cons_of_mem _ hq, hq1, hq2, List.mem_append_right _ hq3⟩
    · rintro ⟨h1, h2⟩
      right
      apply ih1.2
      refine ⟨h1, ?_⟩
      rcases h2 with h2 | ⟨q, hq, hq1, hq2, hq3⟩
      · exact Or.inl (hk.2 (Or.inl h2))
      · rcases List.mem_cons.1 hq with hq | hq
        · subst hq
          rcases List.mem_append.1 hq3 with hq3 | hq3
          · exact Or.inl (hk.2 (Or.inr ⟨hq1, hq2, hq3⟩))
          · obtain ⟨σ, hσ, hσ1⟩ := htags _ hq3
            simp only [Call.slotOf, Option.some.injEq] at hσ1
            exact absurd (hσ1 ▸ hσ) hnd.1
        · rcases List.mem_append.1 hq3 with hq3 | hq3
          · have := htag _ hq3
            simp only [Call.slotOf, Option.some.injEq] at this
            have hq_in : q ∈ pre1 ++ p :: post := List.mem_append_left _ hq
            exact absurd this (not_mem_of_slot_not_mem hnd.1 q hq_in)
          · exact Or.inr ⟨q, hq, hq1, hq2, hq3⟩

/-! ## The drain loop on the ring buffer -/

theorem queueLength_eq {M h t : Nat} (hh : h < M) (ht : t < M) :
    (h + M - t) % M = if t ≤ h then h - t else h + M - t := by
  split
  · rename_i hle
    have : h + M - t = (h - t) + M := by omega
    rw [this, Nat.add_mod_right, Nat.mod_eq_of_lt (by omega)]
  · exact Nat.mod_eq_of_lt (by omega)

theorem succ_mod {M t : Nat} (ht : t < M) : (t + 1) % M = if t + 1 = M then 0 else t + 1 := by
  split
  · rename_i h
    rw [h, Nat.mod_self]
  · exact Nat.mod_eq_of_lt (by omega)

theorem queuedFrom_congr (M : Nat) (events : Nat → event_t) (n : Nat) :
    ∀ a b : Nat, a % M = b % M → queuedFrom M events a n = queuedFrom M events b n := by
  induction n with
  | zero => intro a b _; rfl
  | succ n ih =>
    intro a b hab
    simp only [queuedFrom, hab]
    congr 1
    apply ih
    rw [Nat.add_mod, hab, ← Nat.add_mod]

theorem body_fields (env : Env W) (s : State W) (l : Locals) :
    (D_ProcessEvents.body env s l).1.events = s.events
      ∧ (D_ProcessEvents.body env s l).1.eventhead = s.eventhead
      ∧ (D_ProcessEvents.body env s l).1.eventtail
          = (s.eventtail + 1) &&& (env.MAXEVENTS - 1)
      ∧ (D_ProcessEvents.body env s l).1.ext
          = (D_ProcessEvents.route env s.eventtail (s.events s.eventtail) s.ext l).1
      ∧ (D_ProcessEvents.body env s l).2
          = (D_ProcessEvents.route env s.eventtail (s.events s.eventtail) s.ext l).2 :=
  ⟨rfl, rfl, rfl, rfl, rfl⟩

/-- The drain loop terminates on a queue whose cursors are valid, with fuel for
one iteration per queued record; it leaves the buffer and `eventhead` alone,
moves `eventtail` to `eventhead`, and treats the queued records one by one in
ring order. -/
theorem loop_eq (env : Env W) (k : Nat) (hM : env.MAXEVENTS = 2 ^ k) :
    ∀ (n fuel : Nat) (s : State W) (l : Locals), s.inRange env → queueLength env s = n →
      n ≤ fuel →
      D_ProcessEvents.loop env fuel s l
        = some ({ s with eventtail := s.eventhead,
                         ext := (runRecs env (queued env s) (s.ext, l)).1 },
                (runRecs env (queued env s) (s.ext, l)).2) := by
  intro n
  induction n with
  | zero =>
    intro fuel s l hr hn _
    have hq : queued env s = [] := by
      unfold queued
      rw [hn]
      rfl
    have hte : s.eventtail = s.eventhead := by
      unfold queueLength at hn
      rw [queueLength_eq hr.1 hr.2] at hn
      have h1 := hr.1
      have h2 := hr.2
      split at hn <;> omega
    rw [hq]
    cases fuel with
    | zero =>
      simp only [D_ProcessEvents.loop, hte, runRecs, if_true]
      cases s
      simp at hte ⊢
      exact hte
    | succ f =>
      simp only [D_ProcessEvents.loop, hte, runRecs, if_true]
      cases s
      simp at hte ⊢
      exact hte
  | succ n ih =>
    intro fuel s l hr hn hfuel
    have hne : s.eventtail ≠ s.eventhead := by
      intro hte
      unfold queueLength at hn
      rw [hte] at hn
      have : s.eventhead + env.MAXEVENTS - s.eventhead = env.MAXEVENTS := by omega
      rw [this, Nat.mod_self] at hn
      omega
    obtain ⟨f, rfl⟩ : ∃ f, fuel = f + 1 := ⟨fuel - 1, by omega⟩
    obtain ⟨he, hh, ht, hx, hl⟩ := body_fields env s l
    rw [mask_eq_mod hM] at ht
    have hr1 : (D_ProcessEvents.body env s l).1.inRange env := by
      refine ⟨by rw [hh]; exact hr.1, ?_⟩
      rw [ht]
      exact Nat.mod_lt _ (pow_two_pos hM)
    have hn1 : queueLength env (D_ProcessEvents.body env s l).1 = n := by
      unfold queueLength at hn ⊢
      rw [hh, ht, queueLength_eq hr.1 (Nat.mod_lt _ (pow_two_pos hM)), succ_mod hr.2]
      rw [queueLength_eq hr.1 hr.2] at hn
      have h1 := hr.1
      have h2 := hr.2
      split at hn <;> split <;> split <;> omega
    have hq : queued env s
        = (s.eventtail, s.events s.eventtail) :: queued env (D_ProcessEvents.body env s l).1 := by
      unfold queued
      rw [hn, hn1, he, ht]
      simp only [queuedFrom, Nat.mod_eq_of_lt hr.2]
      congr 1
      apply queuedFrom_congr
      rw [Nat.mod_mod]
    have hstep : D_ProcessEvents.loop env (f + 1) s l
        = D_ProcessEvents.loop env f (D_ProcessEvents.body env s l).1
            (D_ProcessEvents.body env s l).2 := by
      simp only [D_ProcessEvents.loop, hne, if_false]
    rw [hstep, ih f _ _ hr1 hn1 (by omega), hq, runRecs_cons, hx, hl]
    congr 1

/-! ## Slots of the ring -/

theorem ring_ne {M t a b : Nat} (hab : a < b) (hM : b - a < M) :
    (t + a) % M ≠ (t + b) % M := by
  intro h
  have h1 : (t + a) ≡ (t + a) + (b - a) [MOD M] := by
    have : t + a + (b - a) = t + b := by omega
    rw [this]
    exact h
  have h2 : (t + a) + 0 ≡ (t + a) + (b - a) [MOD M] := by simpa using h1
  have h3 : 0 ≡ b - a [MOD M] := Nat.ModEq.add_left_cancel' (t + a) h2
  have h4 : (b - a) % M = 0 := by
    have := h3.symm
    simpa [Nat.ModEq] using this
  rw [Nat.mod_eq_of_lt hM] at h4
  omega

theorem mem_queuedFrom_slots (M : Nat) (events : Nat → event_t) (n : Nat) :
    ∀ t σ, σ ∈ (queuedFrom M events t n).map Prod.fst → ∃ j, j < n ∧ σ = (t + j) % M := by
  induction n with
  | zero => intro t σ h; simp [queuedFrom] at h
  | succ n ih =>
    intro t σ h
    simp only [queuedFrom, List.map_cons, List.mem_cons] at h
    rcases h with h | h
    · exact ⟨0, by omega, by simpa using h⟩
    · obtain ⟨j, hj, hσ⟩ := ih (t + 1) σ h
      exact ⟨j + 1, by omega, by rw [hσ]; congr 1; omega⟩

theorem queuedFrom_snd (M : Nat) (events : Nat → event_t) (n : Nat) :
    ∀ t p, p ∈ queuedFrom M events t n → p.2 = events p.1 := by
  induction n with
  | zero => intro t p h; simp [queuedFrom] at h
  | succ n ih =>
    intro t p h
    simp only [queuedFrom, List.mem_cons] at h
    rcases h with h | h
    · rw [h]
    · exact ih (t + 1) p h

theorem queuedFrom_length (M : Nat) (events : Nat → event_t) (n : Nat) :
    ∀ t, (queuedFrom M events t n).length = n := by
  induction n with
  | zero => intro t; rfl
  | succ n ih => intro t; simp [queuedFrom, ih]

/-- At most `MAXEVENTS` consecutive slots of the ring are pairwise distinct. -/
theorem queuedFrom_nodup (M : Nat) (events : Nat → event_t) (n : Nat) (hn : n ≤ M) :
    ∀ t, ((queuedFrom M events t n).map Prod.fst).Nodup := by
  induction n with
  | zero => intro t; simp [queuedFrom]
  | succ n ih =>
    intro t
    simp only [queuedFrom, List.map_cons, List.nodup_cons]
    refine ⟨?_, ih (by omega) (t + 1)⟩
    intro h
    obtain ⟨j, hj, hσ⟩ := mem_queuedFrom_slots M events n (t + 1) _ h
    have h1 : (t + 0) % M ≠ (t + (j + 1)) % M := ring_ne (by omega) (by omega)
    apply h1
    rw [Nat.add_zero, hσ]
    congr 1
    omega

theorem queuedFrom_ext (M : Nat) (e1 e2 : Nat → event_t) (n : Nat) :
    ∀ t, (∀ j, j < n → e1 ((t + j) % M) = e2 ((t + j) % M)) →
      queuedFrom M e1 t n = queuedFrom M e2 t n := by
  induction n with
  | zero => intro t _; rfl
  | succ n ih =>
    intro t h
    simp only [queuedFrom]
    have h0 := h 0 (by omega)
    rw [Nat.add_zero] at h0
    rw [h0, ih (t + 1)]
    intro j hj
    have := h (j + 1) (by omega)
    have e : t + (j + 1) = t + 1 + j := by omega
    rw [e] at this
    exact this

theorem posted_congr (M : Nat) (evs : List event_t) :
    ∀ a b : Nat, a % M = b % M → posted M a evs = posted M b evs := by
  induction evs with
  | nil => intro a b _; rfl
  | cons e rest ih =>
    intro a b hab
    simp only [posted, hab]
    congr 1
    apply ih
    rw [Nat.add_mod, hab, ← Nat.add_mod]

theorem posted_snd (M : Nat) (evs : List event_t) :
    ∀ h, (posted M h evs).map Prod.snd = evs := by
  induction evs with
  | nil => intro h; rfl
  | cons e rest ih => intro h; simp [posted, ih]

/-- When the cursors are valid, `eventhead` is `queueLength` slots after
`eventtail`, and fewer than `MAXEVENTS` records are queued. -/
theorem head_eq (env : Env W) (s : State W) (hr : s.inRange env) :
    s.eventhead = (s.eventtail + queueLength env s) % env.MAXEVENTS
      ∧ queueLength env s < env.MAXEVENTS := by
  have h1 := hr.1
  have h2 := hr.2
  unfold queueLength
  rw [queueLength_eq h1 h2]
  split
  · refine ⟨?_, by omega⟩
    have : s.eventtail + (s.eventhead - s.eventtail) = s.eventhead := by omega
    rw [this, Nat.mod_eq_of_lt h1]
  · refine ⟨?_, by omega⟩
    have : s.eventtail + (s.eventhead + env.MAXEVENTS - s.eventtail)
        = s.eventhead + env.MAXEVENTS := by omega
    rw [this, Nat.add_mod_right, Nat.mod_eq_of_lt h1]

theorem queueLength_of (env : Env W) (s : State W) (n : Nat) (ht : s.eventtail < env.MAXEVENTS)
    (hn : n < env.MAXEVENTS) (hh : s.eventhead = (s.eventtail + n) % env.MAXEVENTS) :
    queueLength env s = n := by
  have hpos : 0 < env.MAXEVENTS := by omega
  have hr : s.inRange env := ⟨by rw [hh]; exact Nat.mod_lt _ hpos, ht⟩
  obtain ⟨h1, h2⟩ := head_eq env s hr
  by_contra hne
  rw [hh] at h1
  rcases Nat.lt_or_gt_of_ne hne with h | h
  · exact ring_ne h (by omega) h1.symm
  · exact ring_ne h (by omega) h1

theorem queued_of_content (env : Env W) (s : State W) (n : Nat)
    (ht : s.eventtail < env.MAXEVENTS) (hn : n < env.MAXEVENTS)
    (hh : s.eventhead = (s.eventtail + n) % env.MAXEVENTS) :
    queued env s = queuedFrom env.MAXEVENTS s.events s.eventtail n := by
  unfold queued
  rw [queueLength_of env s n ht hn hh]

theorem queued_nodup (env : Env W) (s : State W) (hr : s.inRange env) :
    ((queued env s).map Prod.fst).Nodup :=
  queuedFrom_nodup _ _ _ (Nat.le_of_lt (head_eq env s hr).2) _

/-! ## A pass of `D_ProcessEvents` -/

theorem newDelayed_fresh (l : Locals) : newDelayed freshLocals l = l.delayedevents := by
  simp [newDelayed, freshLocals]

/-- With valid cursors and fuel for every queued record the drain returns: the
buffer and `eventhead` are untouched, `eventtail` has reached `eventhead`, and
the collaborators and the locals are as after treating the queued records one
by one. -/
theorem drain_eq (env : Env W) (k : Nat) (hM : env.MAXEVENTS = 2 ^ k) (s : State W)
    (hr : s.inRange env) (fuel : Nat) (hfuel : queueLength env s ≤ fuel) :
    D_ProcessEvents.drain env fuel s
      = some ({ s with eventtail := s.eventhead,
                       ext := (runRecs env (queued env s) (s.ext, freshLocals)).1 },
              (runRecs env (queued env s) (s.ext, freshLocals)).2) :=
  loop_eq env k hM (queueLength env s) fuel s freshLocals hr rfl hfuel

theorem process_eq (env : Env W) (fuel : Nat) (s s2 : State W) (l2 : Locals)
    (h : D_ProcessEvents.drain env fuel s = some (s2, l2)) :
    D_ProcessEvents env fuel s = some (D_ProcessEvents.repost env l2.delayedevents s2) := by
  unfold D_ProcessEvents
  rw [h]

theorem queuedFrom_erase (M : Nat) (events : Nat → event_t) (σ : Nat) (n : Nat) :
    ∀ t, queuedFrom M (fun i => if i = σ then (events i).erased else events i) t n
      = (queuedFrom M events t n).map
          (fun q => if q.1 = σ then (q.1, q.2.erased) else q) := by
  induction n with
  | zero => intro t; rfl
  | succ n ih =>
    intro t
    simp only [queuedFrom, List.map_cons, ih (t + 1)]
    congr 1
    split <;> rfl

theorem middle_slot_ne {pre post : List (Nat × event_t)} {p : Nat × event_t}
    (hnd : ((pre ++ p :: post).map Prod.fst).Nodup) :
    (∀ q ∈ pre, q.1 ≠ p.1) ∧ (∀ q ∈ post, q.1 ≠ p.1) := by
  rw [List.map_append, List.map_cons, List.nodup_middle, List.nodup_cons] at hnd
  constructor
  · intro q hq he
    exact hnd.1 (List.mem_append_left _ (he ▸ List.mem_map_of_mem Prod.fst hq))
  · intro q hq he
    exact hnd.1 (List.mem_append_right _ (he ▸ List.mem_map_of_mem Prod.fst hq))

theorem erased_erased (ev : event_t) : ev.erased.erased = ev.erased := rfl

/-- The scan of `D_RemoveNextCharEvent` returns when the cursors are valid and
there is fuel for every slot between the scan position and `eventhead`; it
moves no cursor, calls no collaborator, and leaves every slot either unchanged
or with only its type overwritten by `EV_None`. -/
theorem remove_loop_frame (env : Env W) (k : Nat) (hM : env.MAXEVENTS = 2 ^ k) :
    ∀ (n fuel evnum : Nat) (s : State W), evnum < env.MAXEVENTS →
      s.eventhead < env.MAXEVENTS →
      (s.eventhead + env.MAXEVENTS - evnum) % env.MAXEVENTS = n → n ≤ fuel →
      ∃ s1, D_RemoveNextCharEvent.loop env fuel evnum s = some s1
        ∧ s1.eventhead = s.eventhead ∧ s1.eventtail = s.eventtail ∧ s1.ext = s.ext
        ∧ ∀ i, s1.events i = s.events i ∨ s1.events i = (s.events i).erased := by
  have hpos := pow_two_pos hM
  intro n
  induction n with
  | zero =>
    intro fuel evnum s he hh hn _
    have heq : evnum = s.eventhead := by
      rw [queueLength_eq hh he] at hn
      split at hn <;> omega
    refine ⟨s, ?_, rfl, rfl, rfl, fun i => Or.inl rfl⟩
    cases fuel <;> simp [D_RemoveNextCharEvent.loop, heq]
  | succ n ih =>
    intro fuel evnum s he hh hn hfuel
    have hne : evnum ≠ s.eventhead := by
      intro heq
      rw [heq] at hn
      have : s.eventhead + env.MAXEVENTS - s.eventhead = env.MAXEVENTS := by omega
      rw [this, Nat.mod_self] at hn
      omega
    obtain ⟨f, rfl⟩ : ∃ f, fuel = f + 1 := ⟨fuel - 1, by omega⟩
    simp only [D_RemoveNextCharEvent.loop, if_neg hne]
    split
    · exact ⟨s, rfl, rfl, rfl, rfl, fun i => Or.inl rfl⟩
    · have herase : ∀ i, (s.erase evnum).events i = s.events i
          ∨ (s.erase evnum).events i = (s.events i).erased := by
        intro i
        by_cases hi : i = evnum
        · right; simp [State.erase, hi, event_t.erased]
        · left; simp [State.erase, hi]
      split
      · split
        · exact ⟨s.erase evnum, rfl, rfl, rfl, rfl, herase⟩
        · have hn1 : ((s.erase evnum).eventhead + env.MAXEVENTS
              - (evnum + 1) % env.MAXEVENTS) % env.MAXEVENTS = n := by
            show (s.eventhead + env.MAXEVENTS - (evnum + 1) % env.MAXEVENTS) % env.MAXEVENTS = n
            rw [queueLength_eq hh (Nat.mod_lt _ hpos), succ_mod he]
            rw [queueLength_eq hh he] at hn
            split at hn <;> split <;> split <;> omega
          obtain ⟨s1, g1, g2, g3, g4, g5⟩ := ih f ((evnum + 1) % env.MAXEVENTS) (s.erase evnum)
            (Nat.mod_lt _ hpos) hh hn1 (by omega)
          rw [mask_eq_mod hM]
          refine ⟨s1, g1, g2, g3, g4, ?_⟩
          intro i
          rcases g5 i with h | h <;> rcases herase i with h2 | h2
          · left; rw [h, h2]
          · right; rw [h, h2]
          · right; rw [h, h2]
          · right; rw [h, h2, erased_erased]
      · exact ⟨s, rfl, rfl, rfl, rfl, fun i => Or.inl rfl⟩

/-- C5. Logical erasure: overwriting the type of a queued record with
`EV_None` (line 134) changes neither cursor, no other field of that record and
no other slot, so every other queued record keeps its position and content;
`D_RemoveNextCharEvent` returns and changes the queue by such overwrites only;
and when `D_ProcessEvents` drains the erased record it makes no call for it (no
responder is offered it, the device list is not refreshed) and does not defer
it. -/
theorem C5_logical_erasure (env : Env W) (k : Nat) (hM : env.MAXEVENTS = 2 ^ k)
    (s : State W) (hr : s.inRange env) (pre post : List (Nat × event_t)) (p : Nat × event_t)
    (hq : queued env s = pre ++ p :: post) (fuel : Nat) (hfuel : queueLength env s ≤ fuel) :
    (s.erase p.1).eventhead = s.eventhead
      ∧ (s.erase p.1).eventtail = s.eventtail
      ∧ (∀ i, i ≠ p.1 → (s.erase p.1).events i = s.events i)
      ∧ (s.erase p.1).events p.1 = { s.events p.1 with type := EGenericEvent.EV_None }
      ∧ queued env (s.erase p.1) = pre ++ (p.1, p.2.erased) :: post
      ∧ (∃ s1, D_RemoveNextCharEvent env fuel s = some s1
          ∧ s1.eventhead = s.eventhead ∧ s1.eventtail = s.eventtail
          ∧ ∀ i, s1.events i = s.events i ∨ s1.events i = (s.events i).erased)
      ∧ ∃ s2 l2, D_ProcessEvents.drain env fuel (s.erase p.1) = some (s2, l2)
        ∧ (∀ c ∈ newCalls (s.erase p.1).ext s2.ext, c.slotOf ≠ some p.1)
        ∧ p.1 ∉ l2.delayedevents := by
  have hnd := queued_nodup env s hr
  have hq2 : queued env (s.erase p.1) = pre ++ (p.1, p.2.erased) :: post := by
    have h1 : queued env (s.erase p.1)
        = (queued env s).map (fun q => if q.1 = p.1 then (q.1, q.2.erased) else q) := by
      unfold queued queueLength State.erase
      exact queuedFrom_erase _ _ _ _ _
    obtain ⟨hpre, hpost⟩ := middle_slot_ne (hq ▸ hnd)
    rw [h1, hq, List.map_append, List.map_cons]
    congr 1
    · conv_rhs => rw [← List.map_id pre]
      apply List.map_congr_left
      intro q hq
      simp [hpre q hq]
    · congr 1
      · simp
      · conv_rhs => rw [← List.map_id post]
        apply List.map_congr_left
        intro q hq
        simp [hpost q hq]
  have hr2 : (s.erase p.1).inRange env := hr
  have hnd2 := queued_nodup env (s.erase p.1) hr2
  refine ⟨rfl, rfl, ?_, ?_, hq2, ?_, _, _, drain_eq env k hM (s.erase p.1) hr2 fuel hfuel,
    ?_, ?_⟩
  · intro i hi
    simp [State.erase, hi]
  · simp [State.erase]
  · obtain ⟨s1, g1, g2, g3, _, g5⟩ := remove_loop_frame env k hM (queueLength env s) fuel
      s.eventtail s hr.2 hr.1 rfl hfuel
    exact ⟨s1, g1, g2, g3, g5⟩
  · intro c hc heq
    obtain ⟨q, hq1, hq3, hq4, _⟩ := newCalls_dispatched_only env (queued env (s.erase p.1))
      hnd2 (s.erase p.1).ext freshLocals c hc
    rw [heq, Option.some.injEq] at hq3
    have hp : (p.1, p.2.erased) ∈ queued env (s.erase p.1) := by rw [hq2]; simp
    have : q = (p.1, p.2.erased) := List.inj_on_of_nodup_map hnd2 hq1 hp hq3.symm
    rw [this] at hq4
    exact hq4 rfl
  · rw [← newDelayed_fresh (runRecs env (queued env (s.erase p.1))
      ((s.erase p.1).ext, freshLocals)).2]
    intro hd
    have h := deferred_iff env pre (p.1, p.2.erased) post (hq2 ▸ hnd2) (s.erase p.1).ext
      freshLocals
    rw [← hq2] at h
    have := (h.1 hd).1
    simp [event_t.erased] at this

/-- C5, at a concrete input: the queued key-up of `pressRelease` is erased. -/
theorem C5_logical_erasure_witness :
    pressRelease.inRange gameEnv
      ∧ queued gameEnv pressRelease = [(0, keyDown 30 97)] ++ (1, keyUp 30 97) :: []
      ∧ queueLength gameEnv pressRelease ≤ 2
      ∧ (pressRelease.erase 1).eventhead = pressRelease.eventhead
      ∧ (pressRelease.erase 1).eventtail = pressRelease.eventtail
      ∧ (∀ i, i ≠ 1 → (pressRelease.erase 1).events i = pressRelease.events i)
      ∧ (pressRelease.erase 1).events 1
          = { pressRelease.events 1 with type := EGenericEvent.EV_None }
      ∧ queued gameEnv (pressRelease.erase 1)
          = [(0, keyDown 30 97)] ++ (1, (keyUp 30 97).erased) :: []
      ∧ (∃ s1, D_RemoveNextCharEvent gameEnv 2 pressRelease = some s1
          ∧ s1.eventhead = pressRelease.eventhead ∧ s1.eventtail = pressRelease.eventtail
          ∧ ∀ i, s1.events i = pressRelease.events i
              ∨ s1.events i = (pressRelease.events i).erased)
      ∧ ∃ s2 l2, D_ProcessEvents.drain gameEnv 2 (pressRelease.erase 1) = some (s2, l2)
        ∧ (∀ c ∈ newCalls (pressRelease.erase 1).ext s2.ext, c.slotOf ≠ some 1)
        ∧ 1 ∉ l2.delayedevents :=
  ⟨⟨by decide, by decide⟩, by decide, by decide,
    C5_logical_erasure gameEnv 7 (by decide) pressRelease ⟨by decide, by decide⟩
      [(0, keyDown 30 97)] [] (1, keyUp 30 97) (by decide) 2 (by decide)⟩

/-! ## Sequences of posts -/

/-- After any sequence of posts `eventtail` is unchanged, `eventhead` has
advanced by the number `k` of records stored, and only the `k` slots from the
old `eventhead` on may have changed. -/
theorem postAll_frame (env : Env W) (k : Nat) (hM : env.MAXEVENTS = 2 ^ k)
    (evs : List event_t) :
    ∀ s : State W, s.eventhead < env.MAXEVENTS →
      ∃ n, n ≤ evs.length
        ∧ (postAll env evs s).eventhead = (s.eventhead + n) % env.MAXEVENTS
        ∧ (postAll env evs s).eventtail = s.eventtail
        ∧ ∀ i, (∀ j, j < n → i ≠ (s.eventhead + j) % env.MAXEVENTS) →
            (postAll env evs s).events i = s.events i := by
  have hpos := pow_two_pos hM
  induction evs with
  | nil =>
    intro s hs
    exact ⟨0, by simp, by simp [postAll, Nat.mod_eq_of_lt hs], rfl, fun _ _ => rfl⟩
  | cons e rest ih =>
    intro s hs
    simp only [postAll]
    rcases D_PostEvent_queue_cases env e s with ⟨h1, h2, h3⟩ | ⟨h1, h2, h3⟩
    · obtain ⟨n, hn, g1, g2, g3⟩ := ih (D_PostEvent env e s) (by rw [h2]; exact hs)
      refine ⟨n, by simp; omega, by rw [g1, h2], by rw [g2, h3], ?_⟩
      intro i hi
      rw [g3 i (by rw [h2]; exact hi), h1]
    · rw [mask_eq_mod hM] at h2
      obtain ⟨n, hn, g1, g2, g3⟩ := ih (D_PostEvent env e s)
        (by rw [h2]; exact Nat.mod_lt _ hpos)
      refine ⟨n + 1, by simp; omega, ?_, by rw [g2, h3], ?_⟩
      · rw [g1, h2, Nat.mod_add_mod]
        congr 1
        omega
      · intro i hi
        have hi0 := hi 0 (by omega)
        rw [Nat.add_zero, Nat.mod_eq_of_lt hs] at hi0
        rw [g3 i, h1]
        · simp [hi0]
        · intro j hj
          rw [h2, Nat.mod_add_mod]
          have := hi (j + 1) (by omega)
          have e : s.eventhead + (j + 1) = s.eventhead + 1 + j := by omega
          rw [e] at this
          exact this

/-- When every record of a list is stored, the records sit in consecutive
slots from the old `eventhead` on, in posting order. -/
theorem postAll_stored (env : Env W) (k : Nat) (hM : env.MAXEVENTS = 2 ^ k)
    (evs : List event_t) :
    ∀ s : State W, s.eventhead < env.MAXEVENTS → allStored env evs s →
      evs.length ≤ env.MAXEVENTS →
      (postAll env evs s).eventhead = (s.eventhead + evs.length) % env.MAXEVENTS
        ∧ (postAll env evs s).eventtail = s.eventtail
        ∧ queuedFrom env.MAXEVENTS (postAll env evs s).events s.eventhead evs.length
            = posted env.MAXEVENTS s.eventhead evs := by
  have hpos := pow_two_pos hM
  induction evs with
  | nil =>
    intro s hs _ _
    exact ⟨by simp [postAll, Nat.mod_eq_of_lt hs], rfl, rfl⟩
  | cons e rest ih =>
    intro s hs hst hlen
    simp only [allStored] at hst
    obtain ⟨h1, h2, h3⟩ := D_PostEvent_queue_of_stored env e s hst.1 hst.2.1
    rw [mask_eq_mod hM] at h2
    have hs1 : (D_PostEvent env e s).eventhead < env.MAXEVENTS := by
      rw [h2]; exact Nat.mod_lt _ hpos
    simp only [List.length_cons] at hlen
    obtain ⟨g1, g2, g3⟩ := ih (D_PostEvent env e s) hs1 hst.2.2 (by omega)
    obtain ⟨n, hn, f1, f2, f3⟩ := postAll_frame env k hM rest (D_PostEvent env e s) hs1
    simp only [postAll, List.length_cons]
    refine ⟨?_, by rw [g2, h3], ?_⟩
    · rw [g1, h2, Nat.mod_add_mod]
      congr 1
      omega
    · simp only [queuedFrom, posted]
      have hslot : (postAll env rest (D_PostEvent env e s)).events (s.eventhead % env.MAXEVENTS)
          = e := by
        rw [Nat.mod_eq_of_lt hs, f3, h1]
        · simp
        · intro j hj
          rw [h2, Nat.mod_add_mod]
          have := @ring_ne env.MAXEVENTS s.eventhead 0 (1 + j) (by omega) (by omega)
          rw [Nat.add_zero, Nat.mod_eq_of_lt hs, ← Nat.add_assoc] at this
          exact this
      rw [hslot]
      congr 1
      rw [queuedFrom_congr _ _ _ (s.eventhead + 1) (D_PostEvent env e s).eventhead
          (by rw [h2, Nat.mod_mod]),
        g3, posted_congr _ _ (D_PostEvent env e s).eventhead (s.eventhead + 1)
          (by rw [h2, Nat.mod_mod])]

/-- Only key-ups are pushed to `delayedevents`. -/
theorem deferred_keyUp (env : Env W) (recs : List (Nat × event_t))
    (hnd : (recs.map Prod.fst).Nodup) (x : Ext W) (l : Locals) (p : Nat × event_t)
    (hp : p ∈ recs) (hd : p.1 ∈ newDelayed l (runRecs env recs (x, l)).2) :
    p.2.type = EGenericEvent.EV_KeyUp := by
  obtain ⟨pre, post, hsplit⟩ := List.append_of_mem hp
  subst hsplit
  exact ((deferred_iff env pre p post hnd x l).1 hd).1

theorem allStored_of_noHook (env : Env W) (hhook : env.sysCallbacks.DispatchEvent = none)
    (evs : List event_t) (hty : ∀ e ∈ evs, e.type ≠ EGenericEvent.EV_DeviceChange) :
    ∀ s : State W, allStored env evs s := by
  induction evs with
  | nil => intro s; trivial
  | cons e rest ih =>
    intro s
    refine ⟨?_, ?_, ih (fun e he => hty e (List.mem_cons_of_mem _ he)) _⟩
    · simp [D_PostEvent.suppressed, hty e (List.mem_cons_self _ _)]
    · simp [D_PostEvent.absorbed, hhook]

theorem safeRepost_congr (M : Nat) (d : List Nat) :
    ∀ a b : Nat, a % M = b % M → safeRepost M a d → safeRepost M b d := by
  induction d with
  | nil => intro a b _ _; trivial
  | cons σ rest ih =>
    intro a b hab h
    refine ⟨by rw [← hab]; exact h.1, ih (a + 1) (b + 1) ?_ h.2⟩
    rw [Nat.add_mod, hab, ← Nat.add_mod]

/-- Pointers taken in ring order from `m` consecutive slots starting at `t` can
be re-posted safely when the write cursor `w` is at least `m` and at most
`MAXEVENTS` slots ahead of `t`. -/
theorem safeRepost_of_sublist (M : Nat) (events : Nat → event_t) (m : Nat) :
    ∀ (t w : Nat) (d : List Nat), d.Sublist ((queuedFrom M events t m).map Prod.fst) →
      t + m ≤ w → w ≤ t + M → safeRepost M w d := by
  induction m with
  | zero =>
    intro t w d hd _ _
    simp only [queuedFrom, List.map_nil, List.sublist_nil] at hd
    subst hd
    trivial
  | succ m ih =>
    intro t w d hd h1 h2
    simp only [queuedFrom, List.map_cons] at hd
    cases hd with
    | cons _ hd1 => exact ih (t + 1) w d hd1 (by omega) (by omega)
    | cons₂ _ hd1 =>
      rename_i d1
      refine ⟨?_, ih (t + 1) (w + 1) d1 hd1 (by omega) (by omega)⟩
      intro σ hσ he
      obtain ⟨j, hj, hσj⟩ := mem_queuedFrom_slots M events m (t + 1) σ (hd1.subset hσ)
      have hw : w = t + (w - t) := by omega
      have := @ring_ne M t (1 + j) (w - t) (by omega) (by omega)
      apply this
      rw [← hw, ← he, hσj]
      congr 1
      omega

/-- Re-posting pointers in a safe order, when every re-post is stored, is the
same as posting the records they pointed to when the re-post run started. -/
theorem repost_eq_postAll (env : Env W) (k : Nat) (hM : env.MAXEVENTS = 2 ^ k) (d : List Nat) :
    ∀ (s : State W) (w : Nat), s.eventhead = w % env.MAXEVENTS →
      allStored env (d.map s.events) s →
      safeRepost env.MAXEVENTS w d →
      D_ProcessEvents.repost env d s = postAll env (d.map s.events) s := by
  induction d with
  | nil => intro s w _ _ _; rfl
  | cons σ rest ih =>
    intro s w hw hstored hsafe
    simp only [D_ProcessEvents.repost, List.map_cons, postAll]
    obtain ⟨hst, hab, hrest⟩ := hstored
    obtain ⟨h1, h2, _⟩ := D_PostEvent_queue_of_stored env (s.events σ) s hst hab
    rw [mask_eq_mod hM] at h2
    have hsame : ∀ τ ∈ rest, (D_PostEvent env (s.events σ) s).events τ = s.events τ := by
      intro τ hτ
      rw [h1]
      have := hsafe.1 τ hτ
      rw [← hw] at this
      simp [this]
    have hmap : rest.map (D_PostEvent env (s.events σ) s).events = rest.map s.events :=
      List.map_congr_left hsame
    rw [ih (D_PostEvent env (s.events σ) s) (w + 1) (by rw [h2, hw, Nat.mod_add_mod])
      (by rw [hmap]; exact hrest) hsafe.2, hmap]

/-- The pointers pushed to `delayedevents` in a pass over a queue with valid
cursors are slots of queued records, in queue order, and point to key-ups. -/
theorem delayed_keyUps (env : Env W) (s : State W) (hr : s.inRange env) (d : List Nat)
    (hd : d = (runRecs env (queued env s) (s.ext, freshLocals)).2.delayedevents) :
    d.Sublist ((queued env s).map Prod.fst)
      ∧ ∀ σ ∈ d, (s.events σ).type = EGenericEvent.EV_KeyUp := by
  have hnd := queued_nodup env s hr
  have hsub : d.Sublist ((queued env s).map Prod.fst) := by
    rw [hd, ← newDelayed_fresh (runRecs env (queued env s) (s.ext, freshLocals)).2]
    exact newDelayed_sublist env _ _ _
  refine ⟨hsub, ?_⟩
  intro σ hσ
  obtain ⟨p, hp, hpσ⟩ := List.mem_map.1 (hsub.subset hσ)
  have h1 : p.1 ∈ newDelayed freshLocals (runRecs env (queued env s) (s.ext, freshLocals)).2 := by
    rw [newDelayed_fresh, ← hd, hpσ]
    exact hσ
  have h2 := deferred_keyUp env _ hnd _ _ p hp h1
  rw [queuedFrom_snd _ _ _ _ p hp, hpσ] at h2
  exact h2

/-- The queue after a pass (valid cursors, every re-post stored): the re-post
stores the deferred records, which are key-ups, in consecutive slots from the
old `eventhead` on, in the order in which they were deferred, with the content
they had in the buffer. -/
theorem repost_after_drain (env : Env W) (k : Nat) (hM : env.MAXEVENTS = 2 ^ k)
    (s : State W) (hr : s.inRange env)
    (x : Ext W) (d : List Nat)
    (hd : d = (runRecs env (queued env s) (s.ext, freshLocals)).2.delayedevents)
    (hst : allStored env (d.map s.events)
      ({ s with eventtail := s.eventhead, ext := x } : State W)) :
    (D_ProcessEvents.repost env d { s with eventtail := s.eventhead, ext := x }).eventtail
        = s.eventhead
      ∧ (D_ProcessEvents.repost env d { s with eventtail := s.eventhead, ext := x }).eventhead
        = (s.eventhead + d.length) % env.MAXEVENTS
      ∧ d.length < env.MAXEVENTS
      ∧ queuedFrom env.MAXEVENTS
          (D_ProcessEvents.repost env d { s with eventtail := s.eventhead, ext := x }).events
          s.eventhead d.length
        = posted env.MAXEVENTS s.eventhead (d.map s.events)
      ∧ (∀ σ ∈ d, (s.events σ).type = EGenericEvent.EV_KeyUp) := by
  obtain ⟨hhead, hlt⟩ := head_eq env s hr
  obtain ⟨hsub, hku⟩ := delayed_keyUps env s hr d hd
  have hlen : d.length ≤ queueLength env s := by
    have := hsub.length_le
    rw [List.length_map] at this
    unfold queued at this
    rw [queuedFrom_length] at this
    exact this
  have hsafe : safeRepost env.MAXEVENTS (s.eventtail + queueLength env s) d :=
    safeRepost_of_sublist env.MAXEVENTS s.events (queueLength env s) s.eventtail _ d hsub
      (Nat.le_refl _) (by omega)
  have hrp := repost_eq_postAll env k hM d
    { s with eventtail := s.eventhead, ext := x } (s.eventtail + queueLength env s) hhead
    hst hsafe
  obtain ⟨g1, g2, g3⟩ := postAll_stored env k hM (d.map s.events)
    { s with eventtail := s.eventhead, ext := x } hr.1 hst
    (by rw [List.length_map]; omega)
  rw [List.length_map] at g1 g3
  rw [hrp]
  exact ⟨g2, g1, by omega, g3, hku⟩

/-- With no pre-dispatch hook every re-post of a pass is stored. -/
theorem repost_stored_of_noHook (env : Env W)
    (hhook : env.sysCallbacks.DispatchEvent = none) (s : State W) (hr : s.inRange env)
    (x : Ext W) (d : List Nat)
    (hd : d = (runRecs env (queued env s) (s.ext, freshLocals)).2.delayedevents) :
    allStored env (d.map s.events) ({ s with eventtail := s.eventhead, ext := x } : State W) := by
  apply allStored_of_noHook env hhook
  intro e he
  obtain ⟨σ, hσ, rfl⟩ := List.mem_map.1 he
  rw [(delayed_keyUps env s hr d hd).2 σ hσ]
  simp

/-- Two passes with a pre-dispatch hook that is installed and declines
everything: the gameplay responder claims the key-down in the first pass, the
key-up gets no call in that pass, is re-posted through the hook, and is offered
to the three responders in the second pass. -/
theorem pressRelease_with_declining_hook :
    (D_ProcessEvents observedEnv 2
        (postAll observedEnv [keyDown 30 97, keyUp 30 97] startState)).map
        (fun s => (s.ext.calls, s.eventtail, s.eventhead, s.events 2))
      = some ([Call.DispatchEvent (keyDown 30 97) false,
                Call.DispatchEvent (keyUp 30 97) false,
                Call.C_Responder 0 (keyDown 30 97) false,
                Call.M_Responder 0 (keyDown 30 97) false,
                Call.G_Responder 0 (keyDown 30 97) true,
                Call.DispatchEvent (keyUp 30 97) false], 2, 3, keyUp 30 97)
      ∧ ((D_ProcessEvents observedEnv 2
            (postAll observedEnv [keyDown 30 97, keyUp 30 97] startState)).bind
          (D_ProcessEvents observedEnv 2)).map (fun s => offers s.ext.calls)
        = some [(0, keyDown 30 97), (0, keyDown 30 97), (0, keyDown 30 97),
                (2, keyUp 30 97), (2, keyUp 30 97), (2, keyUp 30 97)] := by
  decide

/-- The pass of C2's concrete input, evaluated: the gameplay responder claims
the key-down, the key-up gets no call, and it is queued again at slot 2. -/
theorem pressRelease_pass :
    (D_ProcessEvents gameEnv 2 pressRelease).map
        (fun s => (s.ext.calls, s.eventtail, s.eventhead, s.events 2))
      = some ([Call.C_Responder 0 (keyDown 30 97) false,
                Call.M_Responder 0 (keyDown 30 97) false,
                Call.G_Responder 0 (keyDown 30 97) true], 2, 3, keyUp 30 97) := by
  decide

/-! ## `PostMouseMove` -/

/-- C11, as stated, fails: with both sensitivities 2.0 and no inversion,
`PostMouseMove(10, -10)` hands `D_PostEvent` a record whose `y` is 20, not 10;
with both inversion flags set its `y` is -20, not -10. -/
theorem C11_y_is_scaled_by_sensitivity :
    (PostMouseMove.event defaultCVars 10 (-10)).map (fun ev => ev.y) = some 20
      ∧ (PostMouseMove.event defaultCVars 10 (-10)).map (fun ev => ev.y) ≠ some 10
      ∧ (PostMouseMove.event invertedCVars 10 (-10)).map (fun ev => ev.y) = some (-20)
      ∧ (PostMouseMove.event invertedCVars 10 (-10)).map (fun ev => ev.y) ≠ some (-10) := by
  decide!

/-- C11, amended. With both sensitivities 2.0, `PostMouseMove(10, -10)` without
inversion posts one record of type `EV_Mouse` with `x = 20` and `y = 20`, and
with both inversion flags set one record of type `EV_Mouse` with `x = -20` and
`y = -20`; all other fields are zero. -/
theorem C11_mouse_move_values (env : Env W) (s : State W) :
    PostMouseMove env defaultCVars 10 (-10) s = D_PostEvent env (mouseEvent 20 20) s
      ∧ PostMouseMove env invertedCVars 10 (-10) s = D_PostEvent env (mouseEvent (-20) (-20)) s
      ∧ (mouseEvent 20 20).type = EGenericEvent.EV_Mouse
      ∧ (mouseEvent (-20) (-20)).type = EGenericEvent.EV_Mouse := by
  have h1 : PostMouseMove.event defaultCVars 10 (-10) = some (mouseEvent 20 20) := by decide!
  have h2 : PostMouseMove.event invertedCVars 10 (-10) = some (mouseEvent (-20) (-20)) := by
    decide!
  refine ⟨?_, ?_, rfl, rfl⟩
  · simp only [PostMouseMove, h1]
  · simp only [PostMouseMove, h2]

theorem float_round_zero : float.round 0 = float.finite 0 := by decide!

theorem float_zero_mul (q : Rat) : float.finite 0 * float.finite q = float.finite 0 := by
  show float.mul (float.finite 0) (float.finite q) = float.finite 0
  simp only [float.mul, zero_mul, float_round_zero]

theorem float_neg_zero : -float.finite 0 = float.finite 0 := by
  show float.neg (float.finite 0) = float.finite 0
  simp only [float.neg, neg_zero]

/-- Conversion from `int` and multiplication round to the nearest `float`, ties
to even: 16777217 = 2^24 + 1 becomes 16777216 and 16777219 becomes 16777220;
0.1f * 3 is 5033165 / 2^24; a product below half the smallest subnormal is zero
and a product of 2^128 is an infinity. -/
theorem float_rounding_examples :
    float.ofInt 16777217 = float.finite 16777216
      ∧ float.ofInt 16777219 = float.finite 16777220
      ∧ float.ofInt (-16777219) = float.finite (-16777220)
      ∧ float.round (1 / 10) = float.finite (13421773 / 134217728)
      ∧ float.ofInt 3 * float.finite (13421773 / 134217728)
          = float.finite (5033165 / 16777216)
      ∧ float.finite (1 / 2 ^ 100) * float.finite (1 / 2 ^ 50) = float.finite 0
      ∧ float.finite (2 ^ 64) * float.finite (2 ^ 64) = float.inf false := by
  decide!

theorem delta_zero (cv : CVars) (qx qy : Rat) (hx : cv.m_sensitivity_x = float.finite qx)
    (hy : cv.m_sensitivity_y = float.finite qy) :
    (PostMouseMove.delta cv 0 0).x = float.finite 0
      ∧ (PostMouseMove.delta cv 0 0).y = float.finite 0 := by
  have h0 : float.ofInt 0 = float.finite 0 := float_round_zero
  unfold PostMouseMove.delta
  cases cv.invertmousex <;> cases cv.invertmouse <;>
    simp [zeroEvent, hx, hy, h0, float_zero_mul, float_neg_zero]

/-- C16, as stated, fails: with an infinite horizontal sensitivity the product
`float(0) * m_sensitivity_x` is a NaN, which the test of line 179 takes for
non-zero, so `PostMouseMove(0, 0)` posts a record: the queue of a fresh program
holds one record of type `EV_Mouse` afterwards.  The same happens with a
vertical sensitivity that is a NaN. -/
theorem C16_zero_motion_posted_when_sensitivity_infinite :
    PostMouseMove.event infiniteCVars 0 0 = some (mouseEvent float.nan 0)
      ∧ PostMouseMove gameEnv infiniteCVars 0 0 startState
          = D_PostEvent gameEnv (mouseEvent float.nan 0) startState
      ∧ (PostMouseMove gameEnv infiniteCVars 0 0 startState).eventhead = 1
      ∧ (PostMouseMove gameEnv infiniteCVars 0 0 startState).events 0 = mouseEvent float.nan 0
      ∧ queueLength gameEnv (PostMouseMove gameEnv infiniteCVars 0 0 startState) = 1
      ∧ queueLength gameEnv startState = 0
      ∧ PostMouseMove.event nanCVars 0 0 = some (mouseEvent 0 float.nan) := by
  have h : PostMouseMove.event infiniteCVars 0 0 = some (mouseEvent float.nan 0) := by decide!
  have h2 : PostMouseMove.event nanCVars 0 0 = some (mouseEvent 0 float.nan) := by decide!
  refine ⟨h, ?_, ?_, ?_, ?_, by decide, h2⟩ <;> simp only [PostMouseMove, h] <;> decide

/-- C16, amended. Mouse-move zero suppression.  The deltas of the local record
are `float(xx) * m_sensitivity_x` and `-float(yy) * m_sensitivity_y`, each
negated when its inversion flag is set, and its other fields are zero.
`PostMouseMove` calls `D_PostEvent` if and only if one of the two deltas is
non-zero, then exactly once and with that record made of type `EV_Mouse`; when
both deltas are zero the state is left as it is.  When both sensitivities are
finite, `PostMouseMove(0, 0)` does not call `D_PostEvent`. -/
theorem C16_zero_suppression (env : Env W) (cv : CVars) (xx yy : Int) (s : State W) :
    PostMouseMove.delta cv xx yy
        = { type := EGenericEvent.EV_None, subtype := EGUIEvent.EV_GUI_None,
            data1 := 0, data2 := 0, data3 := 0,
            x := if cv.invertmousex = true then -(float.ofInt xx * cv.m_sensitivity_x)
                 else float.ofInt xx * cv.m_sensitivity_x,
            y := if cv.invertmouse = true then -((-float.ofInt yy) * cv.m_sensitivity_y)
                 else (-float.ofInt yy) * cv.m_sensitivity_y }
      ∧ ((PostMouseMove.event cv xx yy).isSome = true
          ↔ ((PostMouseMove.delta cv xx yy).x.toBool = true
              ∨ (PostMouseMove.delta cv xx yy).y.toBool = true))
      ∧ (∀ ev, PostMouseMove.event cv xx yy = some ev →
          ev = { PostMouseMove.delta cv xx yy with type := EGenericEvent.EV_Mouse }
            ∧ PostMouseMove env cv xx yy s = D_PostEvent env ev s)
      ∧ (PostMouseMove.event cv xx yy = none → PostMouseMove env cv xx yy s = s)
      ∧ (∀ qx qy : Rat, cv.m_sensitivity_x = float.finite qx →
          cv.m_sensitivity_y = float.finite qy →
          PostMouseMove.event cv 0 0 = none ∧ PostMouseMove env cv 0 0 s = s) := by
  refine ⟨?_, ?_, ?_, ?_, ?_⟩
  · unfold PostMouseMove.delta
    cases cv.invertmousex <;> cases cv.invertmouse <;> simp [zeroEvent]
  · unfold PostMouseMove.event
    split <;> simp_all
  · intro ev hev
    refine ⟨?_, by simp only [PostMouseMove, hev]⟩
    unfold PostMouseMove.event at hev
    split at hev
    · exact (Option.some.inj hev).symm
    · simp at hev
  · intro h
    simp only [PostMouseMove, h]
  · intro qx qy hx hy
    have hzero : PostMouseMove.event cv 0 0 = none := by
      unfold PostMouseMove.event
      rw [if_neg]
      simp [(delta_zero cv qx qy hx hy).1, (delta_zero cv qx qy hx hy).2, float.toBool]
    exact ⟨hzero, by simp only [PostMouseMove, hzero]⟩

/-- C16, amended, at concrete inputs: with the default sensitivities
`PostMouseMove(0, 0)` leaves a fresh queue as it is. -/
theorem C16_zero_suppression_witness :
    PostMouseMove.event defaultCVars 0 0 = none
      ∧ PostMouseMove gameEnv defaultCVars 0 0 startState = startState :=
  (C16_zero_suppression gameEnv defaultCVars 0 0 startState).2.2.2.2 2 2 rfl rfl

/-- `PostMouseMove` evaluated with the default sensitivities: a motion along one
axis posts a record with the other delta zero, and a motion of 2^24 + 1 posts
the rounded product. -/
theorem PostMouseMove_examples :
    PostMouseMove.event defaultCVars 3 0 = some (mouseEvent 6 0)
      ∧ PostMouseMove.event defaultCVars 0 3 = some (mouseEvent 0 (-6))
      ∧ PostMouseMove.event defaultCVars 0 0 = none
      ∧ PostMouseMove.event defaultCVars 16777217 0 = some (mouseEvent 33554432 0)
      ∧ PostMouseMove.event zeroSensitivityCVars 5 (-7) = none := by
  decide!

/-! ## The two projections -/

theorem nat_and_two_pow_ne_zero (a b : Nat) : (a &&& 2 ^ b ≠ 0) ↔ a.testBit b = true := by
  constructor
  · intro h
    by_contra hb
    apply h
    apply Nat.eq_of_testBit_eq
    intro i
    rw [Nat.testBit_and, Nat.testBit_two_pow, Nat.zero_testBit]
    by_cases hi : b = i
    · subst hi; simp [hb]
    · simp [hi]
  · intro h h0
    have := Nat.testBit_and a (2 ^ b) b
    rw [h0, Nat.zero_testBit, h, Nat.testBit_two_pow_self] at this
    simp at this

theorem nat_ldiff_two_pow_ne_zero (a b : Nat) : (Nat.ldiff (2 ^ b) a ≠ 0) ↔ a.testBit b = false := by
  constructor
  · intro h
    by_contra hb
    apply h
    apply Nat.eq_of_testBit_eq
    intro i
    rw [Nat.testBit_ldiff, Nat.testBit_two_pow, Nat.zero_testBit]
    by_cases hi : b = i
    · subst hi; simp at hb; simp [hb]
    · simp [hi]
  · intro h h0
    have := Nat.testBit_ldiff (2 ^ b) a b
    rw [h0, Nat.zero_testBit, h, Nat.testBit_two_pow_self] at this
    simp at this

/-- For a mask with a single bit, the test `!!(v & mask)` says whether that bit
of `v` is set. -/
theorem maskSet_two_pow (v : Int) (b : Nat) : maskSet v (2 ^ b) = v.testBit b := by
  have hc : ((2 : Int) ^ b) = ((2 ^ b : Nat) : Int) := by norm_cast
  unfold maskSet
  rw [hc]
  cases v with
  | ofNat a =>
    show decide (((a &&& 2 ^ b : Nat) : Int) ≠ 0) = a.testBit b
    have := nat_and_two_pow_ne_zero a b
    by_cases h : a.testBit b = true
    · rw [h, decide_eq_true_iff]
      exact_mod_cast this.2 h
    · have hf : a.testBit b = false := by simpa using h
      rw [hf, decide_eq_false_iff_not, not_not]
      have : a &&& 2 ^ b = 0 := by
        by_contra hne
        exact h (this.1 hne)
      exact_mod_cast this
  | negSucc a =>
    show decide (((Nat.ldiff (2 ^ b) a : Nat) : Int) ≠ 0) = !(a.testBit b)
    have := nat_ldiff_two_pow_ne_zero a b
    by_cases h : a.testBit b = false
    · rw [h, Bool.not_false, decide_eq_true_iff]
      exact_mod_cast this.2 h
    · have hf : a.testBit b = true := by simpa using h
      rw [hf, Bool.not_true, decide_eq_false_iff_not, not_not]
      have : Nat.ldiff (2 ^ b) a = 0 := by
        by_contra hne
        exact h (this.1 hne)
      exact_mod_cast this

/-- C12. GUI Event View modifier asymmetry: for every record with one of the
key sub-kinds (key-down, key-repeat, key-up) `KeyChar` is `data1` and the three
flags are the tests of `data3` against `GKM_SHIFT`, `GKM_ALT` and `GKM_CTRL`;
for every record with the char sub-kind `KeyChar` is `data1`, `IsAlt` says
whether `data2` is non-zero and `IsShift` and `IsCtrl` are false whatever
`data3` holds; the mouse fields are zero in both cases.  When a mask is a
single bit, its test says whether that bit of `data3` is set. -/
theorem C12_gui_modifier_asymmetry (gkm : GKM) (ev : event_t) :
    FUiEvent.construct gkm { ev with subtype := EGUIEvent.EV_GUI_KeyDown }
        = { Type_ := EGUIEvent.EV_GUI_KeyDown, KeyString := FString.ofChar ev.data1,
            KeyChar := ev.data1, MouseX := 0, MouseY := 0,
            IsShift := maskSet ev.data3 gkm.GKM_SHIFT, IsAlt := maskSet ev.data3 gkm.GKM_ALT,
            IsCtrl := maskSet ev.data3 gkm.GKM_CTRL }
      ∧ FUiEvent.construct gkm { ev with subtype := EGUIEvent.EV_GUI_KeyRepeat }
        = { Type_ := EGUIEvent.EV_GUI_KeyRepeat, KeyString := FString.ofChar ev.data1,
            KeyChar := ev.data1, MouseX := 0, MouseY := 0,
            IsShift := maskSet ev.data3 gkm.GKM_SHIFT, IsAlt := maskSet ev.data3 gkm.GKM_ALT,
            IsCtrl := maskSet ev.data3 gkm.GKM_CTRL }
      ∧ FUiEvent.construct gkm { ev with subtype := EGUIEvent.EV_GUI_KeyUp }
        = { Type_ := EGUIEvent.EV_GUI_KeyUp, KeyString := FString.ofChar ev.data1,
            KeyChar := ev.data1, MouseX := 0, MouseY := 0,
            IsShift := maskSet ev.data3 gkm.GKM_SHIFT, IsAlt := maskSet ev.data3 gkm.GKM_ALT,
            IsCtrl := maskSet ev.data3 gkm.GKM_CTRL }
      ∧ FUiEvent.construct gkm { ev with subtype := EGUIEvent.EV_GUI_Char }
        = { Type_ := EGUIEvent.EV_GUI_Char, KeyString := MakeUTF8 ev.data1,
            KeyChar := ev.data1, MouseX := 0, MouseY := 0,
            IsShift := false, IsAlt := decide (ev.data2 ≠ 0), IsCtrl := false }
      ∧ (∀ b : Nat, gkm.GKM_SHIFT = 2 ^ b →
          maskSet ev.data3 gkm.GKM_SHIFT = ev.data3.testBit b)
      ∧ (∀ b : Nat, gkm.GKM_ALT = 2 ^ b → maskSet ev.data3 gkm.GKM_ALT = ev.data3.testBit b)
      ∧ (∀ b : Nat, gkm.GKM_CTRL = 2 ^ b →
          maskSet ev.data3 gkm.GKM_CTRL = ev.data3.testBit b) :=
  ⟨rfl, rfl, rfl, rfl, fun b h => h ▸ maskSet_two_pow _ b, fun b h => h ▸ maskSet_two_pow _ b,
    fun b h => h ▸ maskSet_two_pow _ b⟩

/-- The GUI Event View evaluated: a key-down with shift and alt held (masks 1,
4 and 2 for shift, alt and control), and a char record whose `data3` has all
three bits set. -/
theorem FUiEvent_examples :
    FUiEvent.construct oneBitMasks (guiEvent EGUIEvent.EV_GUI_KeyDown 97 65 5)
        = { Type_ := EGUIEvent.EV_GUI_KeyDown, KeyString := [97], KeyChar := 97, MouseX := 0,
            MouseY := 0, IsShift := true, IsAlt := true, IsCtrl := false }
      ∧ FUiEvent.construct oneBitMasks (guiEvent EGUIEvent.EV_GUI_Char 97 1 7)
        = { Type_ := EGUIEvent.EV_GUI_Char, KeyString := [97], KeyChar := 97, MouseX := 0,
            MouseY := 0, IsShift := false, IsAlt := true, IsCtrl := false } := by
  decide

/-- C13, as stated, fails: a record whose sub-kind is none of none, key-down,
key-repeat, key-up and char takes the default branch of `FUiEvent`, which is
the mouse branch: `MouseX` and `MouseY` are `data1` and `data2`, not zero, and
`IsShift` follows `data3`. -/
theorem C13_default_gui_branch_reads_payload :
    FUiEvent.construct oneBitMasks (guiEvent (EGUIEvent.EV_GUI_Other 6) 3 4 1)
      = { Type_ := EGUIEvent.EV_GUI_Other 6, KeyString := [], KeyChar := 0, MouseX := 3,
          MouseY := 4, IsShift := true, IsAlt := false, IsCtrl := false } := by
  decide

/-- C13, amended. Default projection: for every record whose type is not
key-down, key-up or mouse, whatever its sub-kind, the Generic Input View has
`KeyScan`, `KeyChar`, `MouseX` and `MouseY` zero and no text; for every record
whose sub-kind is not none, key-down, key-repeat, key-up or char, whatever its
type, the GUI Event View has `KeyChar` zero and no text, while `MouseX` and
`MouseY` are `data1` and `data2` and the three flags are the tests of `data3`
against the modifier masks. -/
theorem C13_default_projection (gkm : GKM) (ev1 ev2 : event_t)
    (htype : ev1.type ≠ EGenericEvent.EV_KeyDown ∧ ev1.type ≠ EGenericEvent.EV_KeyUp
      ∧ ev1.type ≠ EGenericEvent.EV_Mouse)
    (hsub : ev2.subtype ≠ EGUIEvent.EV_GUI_None ∧ ev2.subtype ≠ EGUIEvent.EV_GUI_KeyDown
      ∧ ev2.subtype ≠ EGUIEvent.EV_GUI_KeyRepeat ∧ ev2.subtype ≠ EGUIEvent.EV_GUI_KeyUp
      ∧ ev2.subtype ≠ EGUIEvent.EV_GUI_Char) :
    FInputEvent.construct ev1
        = some { Type_ := ev1.type, KeyScan := 0, KeyString := [], KeyChar := 0, MouseX := 0,
                 MouseY := 0 }
      ∧ FUiEvent.construct gkm ev2
        = { Type_ := ev2.subtype, KeyString := [], KeyChar := 0, MouseX := ev2.data1,
            MouseY := ev2.data2, IsShift := maskSet ev2.data3 gkm.GKM_SHIFT,
            IsAlt := maskSet ev2.data3 gkm.GKM_ALT,
            IsCtrl := maskSet ev2.data3 gkm.GKM_CTRL } := by
  constructor
  · unfold FInputEvent.construct
    cases h : ev1.type <;> simp_all
  · unfold FUiEvent.construct
    cases h : ev2.subtype <;> simp_all

/-- C13, amended, at concrete inputs: the Generic Input View of a device-change
record, whose sub-kind is none, and the GUI Event View of a record of type
key-down that carries a mouse-like sub-kind. -/
theorem C13_default_projection_witness :
    (deviceChange.type ≠ EGenericEvent.EV_KeyDown ∧ deviceChange.type ≠ EGenericEvent.EV_KeyUp
        ∧ deviceChange.type ≠ EGenericEvent.EV_Mouse)
      ∧ (keyTypedMouseLike.subtype ≠ EGUIEvent.EV_GUI_None
        ∧ keyTypedMouseLike.subtype ≠ EGUIEvent.EV_GUI_KeyDown
        ∧ keyTypedMouseLike.subtype ≠ EGUIEvent.EV_GUI_KeyRepeat
        ∧ keyTypedMouseLike.subtype ≠ EGUIEvent.EV_GUI_KeyUp
        ∧ keyTypedMouseLike.subtype ≠ EGUIEvent.EV_GUI_Char)
      ∧ FInputEvent.construct deviceChange
        = some { Type_ := deviceChange.type, KeyScan := 0, KeyString := [], KeyChar := 0,
                 MouseX := 0, MouseY := 0 }
      ∧ FUiEvent.construct oneBitMasks keyTypedMouseLike
        = { Type_ := keyTypedMouseLike.subtype, KeyString := [], KeyChar := 0,
            MouseX := keyTypedMouseLike.data1, MouseY := keyTypedMouseLike.data2,
            IsShift := maskSet keyTypedMouseLike.data3 oneBitMasks.GKM_SHIFT,
            IsAlt := maskSet keyTypedMouseLike.data3 oneBitMasks.GKM_ALT,
            IsCtrl := maskSet keyTypedMouseLike.data3 oneBitMasks.GKM_CTRL } :=
  ⟨by decide, by decide,
    C13_default_projection oneBitMasks deviceChange keyTypedMouseLike (by decide) (by decide)⟩

/-- The two projections at records that fall in the default branch of one
constructor and in a named branch of the other. -/
theorem default_projection_examples :
    FInputEvent.construct (guiEvent EGUIEvent.EV_GUI_Char 97 1 7)
        = some { Type_ := EGenericEvent.EV_GUI_Event, KeyScan := 0, KeyString := [],
                 KeyChar := 0, MouseX := 0, MouseY := 0 }
      ∧ FUiEvent.construct oneBitMasks keyTypedMouseLike
        = { Type_ := EGUIEvent.EV_GUI_Other 6, KeyString := [], KeyChar := 0, MouseX := 30,
            MouseY := 97, IsShift := true, IsAlt := false, IsCtrl := false } := by
  decide

theorem tdiv_eq_truncate (q : Rat) : Int.tdiv q.num q.den = truncateTowardZero q := by
  unfold truncateTowardZero
  have hden : (0 : Int) ≤ (q.den : Int) := Int.ofNat_nonneg _
  split
  · rename_i h
    rw [Rat.floor_def, Int.tdiv_eq_ediv (Rat.num_nonneg.2 h) hden]
  · rename_i h
    have hneg : q.num < 0 := Rat.num_neg.2 (not_le.1 h)
    have h1 : ⌈q⌉ = -⌊-q⌋ := by
      have := Int.ceil_neg (a := -q)
      rw [neg_neg] at this
      exact this
    rw [h1, Rat.floor_def, Rat.neg_num, Rat.neg_den,
      ← Int.tdiv_eq_ediv (by omega) hden, Int.neg_tdiv, neg_neg]

/-- The conversion `int(f)` of a finite `float` whose truncation fits an `int`
is that truncation. -/
theorem float_to_int_eq (q : Rat)
    (h : INT_MIN ≤ truncateTowardZero q ∧ truncateTowardZero q ≤ INT_MAX) :
    float_to_int (float.finite q) = some (truncateTowardZero q) := by
  show (if INT_MIN ≤ Int.tdiv q.num q.den ∧ Int.tdiv q.num q.den ≤ INT_MAX then
      some (Int.tdiv q.num q.den) else none) = some (truncateTowardZero q)
  rw [tdiv_eq_truncate, if_pos h]

/-- The conversions of lines 206-207 are undefined for a record of type
`EV_Mouse` with a delta that is infinite or a NaN, or whose truncation does not
fit an `int`. -/
theorem FInputEvent_mouse_undefined (ev : event_t) (h : ev.type = EGenericEvent.EV_Mouse)
    (hbad : ∀ q : Rat, ev.x = float.finite q →
      ¬ (INT_MIN ≤ truncateTowardZero q ∧ truncateTowardZero q ≤ INT_MAX)) :
    FInputEvent.construct ev = none := by
  have hx : float_to_int ev.x = none := by
    cases hq : ev.x with
    | finite q =>
      show (if INT_MIN ≤ Int.tdiv q.num q.den ∧ Int.tdiv q.num q.den ≤ INT_MAX then
        some (Int.tdiv q.num q.den) else none) = none
      rw [tdiv_eq_truncate, if_neg (hbad q hq)]
    | inf negative => rfl
    | nan => rfl
  simp [FInputEvent.construct, h, hx]

/-- C14, as stated, fails: `PostMouseMove(1073741824, 0)` with the default
sensitivity produces a record of type `EV_Mouse` whose `x` is 2^31; truncated
toward zero it is 2^31, which no `int` holds, and the conversion of line 206 is
undefined, as it is for an infinite delta, for a NaN and for a delta below
-2^31. -/
theorem C14_delta_beyond_int_range :
    PostMouseMove.event defaultCVars 1073741824 0 = some (mouseEvent 2147483648 0)
      ∧ (mouseEvent 2147483648 0).type = EGenericEvent.EV_Mouse
      ∧ (mouseEvent 2147483648 0).x = float.finite 2147483648
      ∧ INT_MAX < truncateTowardZero 2147483648
      ∧ FInputEvent.construct (mouseEvent 2147483648 0) = none
      ∧ (FInputEvent.construct (mouseEvent 2147483648 0)).map (fun v => v.MouseX)
          ≠ some (truncateTowardZero 2147483648)
      ∧ FInputEvent.construct (mouseEvent (float.inf false) 0) = none
      ∧ FInputEvent.construct (mouseEvent 0 float.nan) = none
      ∧ FInputEvent.construct (mouseEvent 0 (-2147483904)) = none := by
  decide!

/-- The conversion at the ends of the `int` range: -2^31 and 2^31 - 128, the
greatest `float` below 2^31, convert to themselves. -/
theorem float_to_int_examples :
    float_to_int (-2147483648) = some (-2147483648)
      ∧ float_to_int 2147483520 = some 2147483520
      ∧ float.round 2147483520 = 2147483520
      ∧ float_to_int 2147483648 = none
      ∧ float_to_int (float.finite (-1 / 2)) = some 0
      ∧ float_to_int (float.finite (-3 / 2)) = some (-1) := by
  decide!

/-- C14, amended. Generic Input View of a mouse event: for every record of type
`EV_Mouse` whose deltas are finite and, truncated toward zero, fit a 32-bit
`int`, `MouseX` and `MouseY` are the deltas truncated toward zero, `KeyScan` and
`KeyChar` are zero and there is no text. -/
theorem C14_mouse_truncation (ev : event_t) (qx qy : Rat)
    (h : ev.type = EGenericEvent.EV_Mouse)
    (hx : ev.x = float.finite qx) (hy : ev.y = float.finite qy)
    (hxr : INT_MIN ≤ truncateTowardZero qx ∧ truncateTowardZero qx ≤ INT_MAX)
    (hyr : INT_MIN ≤ truncateTowardZero qy ∧ truncateTowardZero qy ≤ INT_MAX) :
    FInputEvent.construct ev
      = some { Type_ := EGenericEvent.EV_Mouse, KeyScan := 0, KeyString := [], KeyChar := 0,
               MouseX := truncateTowardZero qx, MouseY := truncateTowardZero qy } := by
  simp [FInputEvent.construct, h, hx, hy, float_to_int_eq, hxr, hyr]

/-- C14, amended, at the concrete input of the claim: deltas 3.7 and -2.2 give
motion 3 and -2, and so do the `float` values nearest to 3.7 and -2.2. -/
theorem C14_mouse_truncation_witness :
    (mouseEvent (float.finite (37 / 10)) (float.finite (-22 / 10))).type
        = EGenericEvent.EV_Mouse
      ∧ (INT_MIN ≤ truncateTowardZero (37 / 10) ∧ truncateTowardZero (37 / 10) ≤ INT_MAX)
      ∧ (INT_MIN ≤ truncateTowardZero (-22 / 10) ∧ truncateTowardZero (-22 / 10) ≤ INT_MAX)
      ∧ FInputEvent.construct (mouseEvent (float.finite (37 / 10)) (float.finite (-22 / 10)))
        = some { Type_ := EGenericEvent.EV_Mouse, KeyScan := 0, KeyString := [], KeyChar := 0,
                 MouseX := truncateTowardZero (37 / 10),
                 MouseY := truncateTowardZero (-22 / 10) }
      ∧ truncateTowardZero (37 / 10) = 3
      ∧ truncateTowardZero (-22 / 10) = -2
      ∧ float.round (37 / 10) = float.finite (15518925 / 4194304)
      ∧ float.round (-22 / 10) = float.finite (-9227469 / 4194304)
      ∧ FInputEvent.construct (mouseEvent (float.round (37 / 10)) (float.round (-22 / 10)))
        = some { Type_ := EGenericEvent.EV_Mouse, KeyScan := 0, KeyString := [], KeyChar := 0,
                 MouseX := 3, MouseY := -2 } :=
  ⟨rfl, by decide!, by decide!,
    C14_mouse_truncation (mouseEvent (float.finite (37 / 10)) (float.finite (-22 / 10)))
      (37 / 10) (-22 / 10) rfl rfl rfl (by decide!) (by decide!),
    by decide!, by decide!, by decide!, by decide!, by decide!⟩

/-- C15. GUI Event View text rendering: for a char record with `data1 = 0x1F600`
and `data2 = 0`, `KeyString` is the four-byte UTF-8 encoding of the code point
(more than one byte, the first one not ASCII) and `IsAlt` is false; for a
key-down record with the same `data1`, `KeyString` is a text of exactly one
character, `data1` narrowed to a `char`. -/
theorem C15_gui_text_rendering (gkm : GKM) :
    (FUiEvent.construct gkm (guiEvent EGUIEvent.EV_GUI_Char 128512 0 0)).KeyString
        = [240, 159, 152, 128]
      ∧ 1 < (FUiEvent.construct gkm
          (guiEvent EGUIEvent.EV_GUI_Char 128512 0 0)).KeyString.length
      ∧ (∀ b ∈ (FUiEvent.construct gkm
          (guiEvent EGUIEvent.EV_GUI_Char 128512 0 0)).KeyString, 128 ≤ b)
      ∧ (FUiEvent.construct gkm (guiEvent EGUIEvent.EV_GUI_Char 128512 0 0)).IsAlt
        = false
      ∧ (FUiEvent.construct gkm (guiEvent EGUIEvent.EV_GUI_KeyDown 128512 0 0)).KeyString
        = FString.ofChar 128512
      ∧ (FUiEvent.construct gkm
          (guiEvent EGUIEvent.EV_GUI_KeyDown 128512 0 0)).KeyString.length = 1 := by
  have h : (FUiEvent.construct gkm (guiEvent EGUIEvent.EV_GUI_Char 128512 0 0)).KeyString
      = [240, 159, 152, 128] := by
    show MakeUTF8 128512 = [240, 159, 152, 128]
    decide
  refine ⟨h, ?_, ?_, rfl, rfl, rfl⟩
  · rw [h]; decide
  · rw [h]; decide

/-! ## The queue after a pass -/

/-- The pointers pushed during a pass can be re-posted safely from `eventhead`
on: no write of the re-post run lands on a pointer that is still to be read,
also when the writes wrap around the buffer. -/
theorem repost_safe (env : Env W) (s : State W) (hr : s.inRange env) :
    safeRepost env.MAXEVENTS s.eventhead
      (runRecs env (queued env s) (s.ext, freshLocals)).2.delayedevents := by
  obtain ⟨hhead, hlt⟩ := head_eq env s hr
  have hsub : (runRecs env (queued env s) (s.ext, freshLocals)).2.delayedevents.Sublist
      ((queued env s).map Prod.fst) := by
    rw [← newDelayed_fresh (runRecs env (queued env s) (s.ext, freshLocals)).2]
    exact newDelayed_sublist env _ _ _
  have hsafe := safeRepost_of_sublist env.MAXEVENTS s.events (queueLength env s) s.eventtail
    (s.eventtail + queueLength env s) _ hsub (Nat.le_refl _) (by omega)
  refine safeRepost_congr env.MAXEVENTS _ _ _ ?_ hsafe
  rw [hhead, Nat.mod_mod]

/-- C17. Queue contents after a pass: with valid cursors and no pre-dispatch
hook, `D_ProcessEvents` returns, and afterwards the queued records, from
`eventtail` (the old `eventhead`) up to `eventhead`, are exactly the records
deferred during the pass, all key-ups, with the content they had in the buffer
and in the order in which they were deferred; if nothing was deferred the queue
is empty.  No write of the re-post run lands on a deferred record that is still
to be re-posted, also when the writes wrap around the buffer. -/
theorem C17_queue_after_pass (env : Env W) (k : Nat) (hM : env.MAXEVENTS = 2 ^ k)
    (hhook : env.sysCallbacks.DispatchEvent = none)
    (s : State W) (hr : s.inRange env) (fuel : Nat) (hfuel : queueLength env s ≤ fuel) :
    ∃ s2 l2 s3, D_ProcessEvents.drain env fuel s = some (s2, l2)
      ∧ D_ProcessEvents env fuel s = some s3
      ∧ s3.eventtail = s.eventhead
      ∧ s3.eventhead = (s.eventhead + l2.delayedevents.length) % env.MAXEVENTS
      ∧ queued env s3 = posted env.MAXEVENTS s.eventhead (l2.delayedevents.map s.events)
      ∧ (queued env s3).map Prod.snd = l2.delayedevents.map s.events
      ∧ l2.delayedevents.Sublist ((queued env s).map Prod.fst)
      ∧ (∀ σ ∈ l2.delayedevents, (s.events σ).type = EGenericEvent.EV_KeyUp)
      ∧ (l2.delayedevents = [] → s3.eventtail = s3.eventhead)
      ∧ safeRepost env.MAXEVENTS s.eventhead l2.delayedevents := by
  have hdrain := drain_eq env k hM s hr fuel hfuel
  obtain ⟨g1, g2, g3, g4, g5⟩ := repost_after_drain env k hM s hr
    (runRecs env (queued env s) (s.ext, freshLocals)).1
    (runRecs env (queued env s) (s.ext, freshLocals)).2.delayedevents rfl
    (repost_stored_of_noHook env hhook s hr _ _ rfl)
  have hq : queued env (D_ProcessEvents.repost env
      (runRecs env (queued env s) (s.ext, freshLocals)).2.delayedevents
      { s with eventtail := s.eventhead,
               ext := (runRecs env (queued env s) (s.ext, freshLocals)).1 })
      = posted env.MAXEVENTS s.eventhead
          ((runRecs env (queued env s) (s.ext, freshLocals)).2.delayedevents.map s.events) := by
    refine (queued_of_content env _ _ ?_ g3 ?_).trans ?_
    · rw [g1]; exact hr.1
    · rw [g1, g2]
    · rw [g1]; exact g4
  refine ⟨_, _, _, hdrain, process_eq env fuel _ _ _ hdrain, g1, g2, hq, ?_, ?_, g5, ?_,
    repost_safe env s hr⟩
  · rw [hq, posted_snd]
  · show (runRecs env (queued env s) (s.ext, freshLocals)).2.delayedevents.Sublist _
    rw [← newDelayed_fresh (runRecs env (queued env s) (s.ext, freshLocals)).2]
    exact newDelayed_sublist env _ _ _
  · intro hnil
    rw [g1, g2]
    have : (runRecs env (queued env s) (s.ext, freshLocals)).2.delayedevents.length = 0 := by
      rw [List.length_eq_zero]
      exact hnil
    rw [this, Nat.add_zero, Nat.mod_eq_of_lt hr.1]

/-- C17, at a concrete input: after the pass over `pressRelease` the queue
holds the deferred key-up. -/
theorem C17_queue_after_pass_witness :
    gameEnv.sysCallbacks.DispatchEvent = none
      ∧ pressRelease.inRange gameEnv
      ∧ queueLength gameEnv pressRelease ≤ 2
      ∧ ∃ s2 l2 s3, D_ProcessEvents.drain gameEnv 2 pressRelease = some (s2, l2)
        ∧ D_ProcessEvents gameEnv 2 pressRelease = some s3
        ∧ s3.eventtail = pressRelease.eventhead
        ∧ s3.eventhead
            = (pressRelease.eventhead + l2.delayedevents.length) % gameEnv.MAXEVENTS
        ∧ queued gameEnv s3
            = posted gameEnv.MAXEVENTS pressRelease.eventhead
                (l2.delayedevents.map pressRelease.events)
        ∧ (queued gameEnv s3).map Prod.snd = l2.delayedevents.map pressRelease.events
        ∧ l2.delayedevents.Sublist ((queued gameEnv pressRelease).map Prod.fst)
        ∧ (∀ σ ∈ l2.delayedevents, (pressRelease.events σ).type = EGenericEvent.EV_KeyUp)
        ∧ (l2.delayedevents = [] → s3.eventtail = s3.eventhead)
        ∧ safeRepost gameEnv.MAXEVENTS pressRelease.eventhead l2.delayedevents :=
  ⟨rfl, ⟨by decide, by decide⟩, by decide,
    C17_queue_after_pass gameEnv 7 (by decide) rfl pressRelease ⟨by decide, by decide⟩ 2
      (by decide)⟩

/-! ## `D_RemoveNextCharEvent` -/

theorem queuedFrom_erase_where (M : Nat) (events : Nat → event_t) (P : Nat → Prop)
    [DecidablePred P] (n : Nat) :
    ∀ t, queuedFrom M (fun i => if P i then (events i).erased else events i) t n
      = (queuedFrom M events t n).map (fun q => if P q.1 then eraseRec q else q) := by
  induction n with
  | zero => intro t; rfl
  | succ n ih =>
    intro t
    simp only [queuedFrom, List.map_cons, ih (t + 1)]
    congr 1
    split <;> rfl

theorem state_events_eq (s : State W) (f : Nat → event_t) (h : ∀ i, f i = s.events i) :
    ({ s with events := f } : State W) = s := by
  have : f = s.events := funext h
  cases s
  simp at this ⊢
  exact this

/-- The scan of `D_RemoveNextCharEvent`, from a valid position with fuel for
every slot up to `eventhead`, returns the state in which exactly the leading
records counted by `removeExtent` have their type overwritten. -/
theorem remove_loop_spec (env : Env W) (k : Nat) (hM : env.MAXEVENTS = 2 ^ k) :
    ∀ (n fuel evnum : Nat) (s : State W), evnum < env.MAXEVENTS →
      s.eventhead < env.MAXEVENTS →
      (s.eventhead + env.MAXEVENTS - evnum) % env.MAXEVENTS = n → n ≤ fuel →
      D_RemoveNextCharEvent.loop env fuel evnum s
        = some { s with events := fun i =>
            if i ∈ ((queuedFrom env.MAXEVENTS s.events evnum n).take
                (removeExtent (queuedFrom env.MAXEVENTS s.events evnum n))).map Prod.fst
            then (s.events i).erased else s.events i } := by
  have hpos := pow_two_pos hM
  intro n
  induction n with
  | zero =>
    intro fuel evnum s he hh hn _
    have heq : evnum = s.eventhead := by
      rw [queueLength_eq hh he] at hn
      split at hn <;> omega
    have hs : ({ s with events := fun i =>
        if i ∈ ((queuedFrom env.MAXEVENTS s.events evnum 0).take
            (removeExtent (queuedFrom env.MAXEVENTS s.events evnum 0))).map Prod.fst
        then (s.events i).erased else s.events i } : State W) = s :=
      state_events_eq s _ (fun i => by simp [queuedFrom])
    rw [hs]
    cases fuel <;> simp [D_RemoveNextCharEvent.loop, heq]
  | succ n ih =>
    intro fuel evnum s he hh hn hfuel
    have hne : evnum ≠ s.eventhead := by
      intro heq
      rw [heq] at hn
      have : s.eventhead + env.MAXEVENTS - s.eventhead = env.MAXEVENTS := by omega
      rw [this, Nat.mod_self] at hn
      omega
    have hnlt : n + 1 < env.MAXEVENTS := by
      rw [← hn]; exact Nat.mod_lt _ hpos
    obtain ⟨f, rfl⟩ : ∃ f, fuel = f + 1 := ⟨fuel - 1, by omega⟩
    simp only [D_RemoveNextCharEvent.loop, if_neg hne, queuedFrom, Nat.mod_eq_of_lt he]
    by_cases hty : (s.events evnum).type ≠ EGenericEvent.EV_GUI_Event
    · rw [if_pos hty]
      simp only [removeExtent, if_pos hty, List.take_zero, List.map_nil]
      rfl
    · rw [if_neg hty]
      by_cases hch : (s.events evnum).subtype = EGUIEvent.EV_GUI_Char
      · rw [if_pos (Or.inr hch), if_pos hch]
        simp only [removeExtent, if_neg hty, if_pos hch, List.take_succ_cons, List.take_zero,
          List.map_cons, List.map_nil, List.mem_singleton]
        rfl
      · by_cases hkd : (s.events evnum).subtype = EGUIEvent.EV_GUI_KeyDown
        · rw [if_pos (Or.inl hkd), if_neg hch]
          have hn1 : ((s.erase evnum).eventhead + env.MAXEVENTS
              - (evnum + 1) % env.MAXEVENTS) % env.MAXEVENTS = n := by
            show (s.eventhead + env.MAXEVENTS - (evnum + 1) % env.MAXEVENTS) % env.MAXEVENTS = n
            rw [queueLength_eq hh (Nat.mod_lt _ hpos), succ_mod he]
            rw [queueLength_eq hh he] at hn
            split at hn <;> split <;> split <;> omega
          have hQ : queuedFrom env.MAXEVENTS (s.erase evnum).events
                ((evnum + 1) % env.MAXEVENTS) n
              = queuedFrom env.MAXEVENTS s.events (evnum + 1) n := by
            rw [queuedFrom_congr _ _ _ ((evnum + 1) % env.MAXEVENTS) (evnum + 1)
              (Nat.mod_mod _ _)]
            apply queuedFrom_ext
            intro j hj
            have hneq : (evnum + 1 + j) % env.MAXEVENTS ≠ evnum := by
              have := @ring_ne env.MAXEVENTS evnum 0 (1 + j) (by omega) (by omega)
              rw [Nat.add_zero, Nat.mod_eq_of_lt he, ← Nat.add_assoc] at this
              exact fun h => this h.symm
            simp [State.erase, hneq]
          rw [mask_eq_mod hM, ih f ((evnum + 1) % env.MAXEVENTS) (s.erase evnum)
            (Nat.mod_lt _ hpos) hh hn1 (by omega), hQ]
          simp only [removeExtent, if_neg hty, if_neg hch, if_pos hkd]
          have htake : ∀ r, List.take (1 + r)
              ((evnum, s.events evnum) :: queuedFrom env.MAXEVENTS s.events (evnum + 1) n)
              = (evnum, s.events evnum)
                :: List.take r (queuedFrom env.MAXEVENTS s.events (evnum + 1) n) := by
            intro r
            rw [Nat.add_comm, List.take_succ_cons]
          rw [htake]
          congr 1
          show ({ s with events := _ } : State W) = { s with events := _ }
          congr 1
          funext i
          simp only [State.erase, List.map_cons, List.mem_cons]
          by_cases hi : i = evnum
          · subst hi
            simp only [if_true, true_or]
            split <;> rfl
          · simp only [hi, if_false, false_or]
        · have hor : ¬ ((s.events evnum).subtype = EGUIEvent.EV_GUI_KeyDown
              ∨ (s.events evnum).subtype = EGUIEvent.EV_GUI_Char) := by
            rintro (h | h)
            · exact hkd h
            · exact hch h
          rw [if_neg hor]
          simp only [removeExtent, if_neg hty, if_neg hch, if_neg hkd, List.take_zero,
            List.map_nil]
          rfl

theorem removeExtent_keyDowns (A rest : List (Nat × event_t))
    (hA : ∀ a ∈ A, isGuiKeyDown a.2) :
    removeExtent (A ++ rest) = A.length + removeExtent rest := by
  induction A with
  | nil => simp
  | cons a t ih =>
    have ha := hA a (List.mem_cons_self _ _)
    have ht := ih (fun b hb => hA b (List.mem_cons_of_mem _ hb))
    simp only [List.cons_append, removeExtent, List.length_cons]
    rw [if_neg (by rw [ha.1]; simp), if_neg (by rw [ha.2]; simp), if_pos ha.2]
    have ht2 : removeExtent (t.append rest) = t.length + removeExtent rest := ht
    rw [ht2]
    omega

theorem removeExtent_char (c : Nat × event_t) (rest : List (Nat × event_t))
    (hc : isGuiChar c.2) : removeExtent (c :: rest) = 1 := by
  simp only [removeExtent]
  rw [if_neg (by rw [hc.1]; simp), if_pos hc.2]

theorem removeExtent_stop (r : Nat × event_t) (rest : List (Nat × event_t))
    (h1 : ¬ isGuiKeyDown r.2) (h2 : ¬ isGuiChar r.2) : removeExtent (r :: rest) = 0 := by
  simp only [removeExtent]
  by_cases hty : r.2.type ≠ EGenericEvent.EV_GUI_Event
  · rw [if_pos hty]
  · have hty2 : r.2.type = EGenericEvent.EV_GUI_Event := not_not.1 hty
    rw [if_neg hty, if_neg (fun h => h2 ⟨hty2, h⟩), if_neg (fun h => h1 ⟨hty2, h⟩)]

/-- Overwriting the type of the first `j` of at most `MAXEVENTS` consecutive
slots leaves the other slots of the run as they were. -/
theorem erased_queue (M : Nat) (events : Nat → event_t) (t n : Nat) (hn : n ≤ M) (j : Nat) :
    queuedFrom M
        (fun i => if i ∈ ((queuedFrom M events t n).take j).map Prod.fst
          then (events i).erased else events i) t n
      = ((queuedFrom M events t n).take j).map eraseRec ++ (queuedFrom M events t n).drop j := by
  have hnd := queuedFrom_nodup M events n hn t
  rw [queuedFrom_erase_where M events
    (fun i => i ∈ ((queuedFrom M events t n).take j).map Prod.fst) n t]
  generalize queuedFrom M events t n = Q at hnd ⊢
  have key : ∀ S : List Nat, (∀ q ∈ Q.take j, q.1 ∈ S) → (∀ q ∈ Q.drop j, q.1 ∉ S) →
      Q.map (fun q => if q.1 ∈ S then eraseRec q else q)
        = (Q.take j).map eraseRec ++ Q.drop j := by
    intro S h1 h2
    conv_lhs => rw [← List.take_append_drop j Q]
    rw [List.map_append]
    congr 1
    · apply List.map_congr_left
      intro q hq
      rw [if_pos (h1 q hq)]
    · conv_rhs => rw [← List.map_id (List.drop j Q)]
      apply List.map_congr_left
      intro q hq
      rw [if_neg (h2 q hq)]
      rfl
  apply key
  · intro q hq
    exact List.mem_map_of_mem Prod.fst hq
  · intro q hq hmem
    rw [← List.take_append_drop j Q, List.map_append, List.nodup_append] at hnd
    exact hnd.2.2 hmem (List.mem_map_of_mem Prod.fst hq)

/-- C18. Extent of `D_RemoveNextCharEvent`: with valid cursors the function
returns, moves no cursor and touches no slot outside the queue; the queued
records it erases are exactly the leading GUI key-downs and the GUI char that
follows them.  When the queue starts with GUI key-downs followed by a GUI char,
exactly those records get type `EV_None` and every later queued record is
unchanged; when the key-downs are followed by any other record, or reach
`eventhead`, only the key-downs are erased. -/
theorem C18_remove_extent (env : Env W) (k : Nat) (hM : env.MAXEVENTS = 2 ^ k)
    (s : State W) (hr : s.inRange env) (fuel : Nat) (hfuel : queueLength env s ≤ fuel) :
    ∃ s1, D_RemoveNextCharEvent env fuel s = some s1
      ∧ s1.eventhead = s.eventhead ∧ s1.eventtail = s.eventtail
      ∧ (∀ i, i ∉ (queued env s).map Prod.fst → s1.events i = s.events i)
      ∧ queued env s1
          = ((queued env s).take (removeExtent (queued env s))).map eraseRec
            ++ (queued env s).drop (removeExtent (queued env s))
      ∧ (∀ A c rest, queued env s = A ++ c :: rest → (∀ a ∈ A, isGuiKeyDown a.2) →
          isGuiChar c.2 → queued env s1 = A.map eraseRec ++ eraseRec c :: rest)
      ∧ (∀ A r rest, queued env s = A ++ r :: rest → (∀ a ∈ A, isGuiKeyDown a.2) →
          ¬ isGuiKeyDown r.2 → ¬ isGuiChar r.2 → queued env s1 = A.map eraseRec ++ r :: rest)
      ∧ (∀ A, queued env s = A → (∀ a ∈ A, isGuiKeyDown a.2) →
          queued env s1 = A.map eraseRec) := by
  have hloop := remove_loop_spec env k hM (queueLength env s) fuel s.eventtail s hr.2 hr.1 rfl
    hfuel
  have hlt := (head_eq env s hr).2
  have hq1 : queued env ({ s with events := fun i =>
        if i ∈ ((queuedFrom env.MAXEVENTS s.events s.eventtail (queueLength env s)).take
            (removeExtent (queuedFrom env.MAXEVENTS s.events s.eventtail
              (queueLength env s)))).map Prod.fst
        then (s.events i).erased else s.events i } : State W)
      = ((queued env s).take (removeExtent (queued env s))).map eraseRec
        ++ (queued env s).drop (removeExtent (queued env s)) :=
    erased_queue env.MAXEVENTS s.events s.eventtail (queueLength env s) (Nat.le_of_lt hlt) _
  refine ⟨_, hloop, rfl, rfl, ?_, hq1, ?_, ?_, ?_⟩
  · intro i hi
    show (if i ∈ _ then _ else _) = _
    rw [if_neg]
    intro hmem
    apply hi
    obtain ⟨q, hq, hqi⟩ := List.mem_map.1 hmem
    exact List.mem_map.2 ⟨q, List.mem_of_mem_take hq, hqi⟩
  · intro A c rest hq hA hc
    rw [hq1, hq, removeExtent_keyDowns A _ hA, removeExtent_char c rest hc]
    have h1 : List.take (A.length + 1) (A ++ c :: rest) = A ++ [c] := by
      rw [List.take_append, List.take_succ_cons, List.take_zero]
    have h2 : List.drop (A.length + 1) (A ++ c :: rest) = rest := by
      rw [List.drop_append, List.drop_succ_cons, List.drop_zero]
    rw [h1, h2]
    simp
  · intro A r rest hq hA h1 h2
    rw [hq1, hq, removeExtent_keyDowns A _ hA, removeExtent_stop r rest h1 h2, Nat.add_zero,
      List.take_left, List.drop_left]
  · intro A hq hA
    have h := removeExtent_keyDowns A [] hA
    rw [List.append_nil] at h
    simp only [removeExtent, Nat.add_zero] at h
    rw [hq1, hq, h, List.take_length, List.drop_length, List.append_nil]

/-- C18, at a concrete input: two GUI key-downs, the GUI char and one further
key-down are queued. -/
theorem C18_remove_extent_witness :
    deadKeyQueue.inRange gameEnv ∧ queueLength gameEnv deadKeyQueue ≤ 4
      ∧ queued gameEnv deadKeyQueue
          = [(0, guiEvent EGUIEvent.EV_GUI_KeyDown 94 0 0),
             (1, guiEvent EGUIEvent.EV_GUI_KeyDown 101 0 0),
             (2, guiEvent EGUIEvent.EV_GUI_Char 234 0 0), (3, keyDown 30 97)]
      ∧ removeExtent (queued gameEnv deadKeyQueue) = 3
      ∧ ∃ s1, D_RemoveNextCharEvent gameEnv 4 deadKeyQueue = some s1
        ∧ s1.eventhead = deadKeyQueue.eventhead ∧ s1.eventtail = deadKeyQueue.eventtail
        ∧ (∀ i, i ∉ (queued gameEnv deadKeyQueue).map Prod.fst →
            s1.events i = deadKeyQueue.events i)
        ∧ queued gameEnv s1
            = ((queued gameEnv deadKeyQueue).take
                (removeExtent (queued gameEnv deadKeyQueue))).map eraseRec
              ++ (queued gameEnv deadKeyQueue).drop (removeExtent (queued gameEnv deadKeyQueue))
        ∧ (∀ A c rest, queued gameEnv deadKeyQueue = A ++ c :: rest →
            (∀ a ∈ A, isGuiKeyDown a.2) → isGuiChar c.2 →
            queued gameEnv s1 = A.map eraseRec ++ eraseRec c :: rest)
        ∧ (∀ A r rest, queued gameEnv deadKeyQueue = A ++ r :: rest →
            (∀ a ∈ A, isGuiKeyDown a.2) → ¬ isGuiKeyDown r.2 → ¬ isGuiChar r.2 →
            queued gameEnv s1 = A.map eraseRec ++ r :: rest)
        ∧ (∀ A, queued gameEnv deadKeyQueue = A → (∀ a ∈ A, isGuiKeyDown a.2) →
            queued gameEnv s1 = A.map eraseRec) :=
  ⟨⟨by decide, by decide⟩, by decide, by decide, by decide,
    C18_remove_extent gameEnv 7 (by decide) deadKeyQueue ⟨by decide, by decide⟩ 4 (by decide)⟩

/-! ## Stale slots and capacity -/

theorem mem_queuedFrom (M : Nat) (events : Nat → event_t) (n : Nat) :
    ∀ t j, j < n → ((t + j) % M, events ((t + j) % M)) ∈ queuedFrom M events t n := by
  induction n with
  | zero => intro t j hj; omega
  | succ n ih =>
    intro t j hj
    simp only [queuedFrom, List.mem_cons]
    cases j with
    | zero => left; rfl
    | succ j =>
      right
      have := ih (t + 1) j (by omega)
      have e : t + 1 + j = t + (j + 1) := by omega
      rw [e] at this
      exact this

/-- A pass over a queue without key-ups defers nothing. -/
theorem no_keyUp_no_deferred (env : Env W) (s : State W) (hr : s.inRange env)
    (hno : ∀ p ∈ queued env s, p.2.type ≠ EGenericEvent.EV_KeyUp) :
    (runRecs env (queued env s) (s.ext, freshLocals)).2.delayedevents = [] := by
  have hnd := queued_nodup env s hr
  rw [List.eq_nil_iff_forall_not_mem]
  intro σ hσ
  rw [← newDelayed_fresh (runRecs env (queued env s) (s.ext, freshLocals)).2] at hσ
  obtain ⟨p, hp, hpσ⟩ := List.mem_map.1 ((newDelayed_sublist env _ _ _).subset hσ)
  rw [← hpσ] at hσ
  exact hno p hp (deferred_keyUp env _ hnd _ _ p hp hσ)

/-- A pass over a queue without key-ups returns with the queue empty at the
old `eventhead` and the buffer untouched. -/
theorem pass_without_keyUp (env : Env W) (k : Nat) (hM : env.MAXEVENTS = 2 ^ k)
    (s : State W) (hr : s.inRange env) (fuel : Nat) (hfuel : queueLength env s ≤ fuel)
    (hno : ∀ p ∈ queued env s, p.2.type ≠ EGenericEvent.EV_KeyUp) :
    D_ProcessEvents env fuel s
      = some { s with eventtail := s.eventhead,
                      ext := (runRecs env (queued env s) (s.ext, freshLocals)).1 } := by
  rw [process_eq env fuel s _ _ (drain_eq env k hM s hr fuel hfuel),
    no_keyUp_no_deferred env s hr hno]
  rfl

theorem posted_replicate_type (M h n : Nat) (ev : event_t) :
    ∀ p ∈ posted M h (List.replicate n ev), p.2 = ev := by
  intro p hp
  have h1 : p.2 ∈ (posted M h (List.replicate n ev)).map Prod.snd :=
    List.mem_map_of_mem Prod.snd hp
  rw [posted_snd] at h1
  exact List.eq_of_mem_replicate h1

/-- C19. Stale-slot suppression: from the zero-initialised queue, with no
pre-dispatch hook and at least two slots, post a device-change, run a pass,
post `MAXEVENTS - 1` key-downs and run a pass.  Both passes return; the queue
is then empty, the record posted last is a key-down, the slot at `eventhead`
still holds the drained device-change, and a device-change posted now is
dropped: `D_PostEvent` returns the state unchanged. -/
theorem C19_stale_slot_suppression (env : Env W) (k : Nat)
    (hM : env.MAXEVENTS = 2 ^ (k + 1)) (hhook : env.sysCallbacks.DispatchEvent = none)
    (w : W) (fuel : Nat) (hfuel : env.MAXEVENTS ≤ fuel) :
    ∃ s2 s4, D_ProcessEvents env fuel (D_PostEvent env deviceChange (zeroState w)) = some s2
      ∧ D_ProcessEvents env fuel
          (postAll env (List.replicate (env.MAXEVENTS - 1) (keyDown 30 97)) s2) = some s4
      ∧ s4.eventhead = s4.eventtail
      ∧ s4.events ((s4.eventhead + env.MAXEVENTS - 1) % env.MAXEVENTS) = keyDown 30 97
      ∧ s4.events s4.eventhead = deviceChange
      ∧ D_PostEvent env deviceChange s4 = s4 := by
  have hpos := pow_two_pos hM
  have hM2 : 2 ≤ env.MAXEVENTS := by
    rw [hM, Nat.pow_succ]
    have := Nat.pos_pow_of_pos k (show 0 < 2 by decide)
    omega
  have h1mod : 1 % env.MAXEVENTS = 1 := Nat.mod_eq_of_lt (by omega)
  -- first post
  have hst1 : allStored env [deviceChange] (zeroState w) := by
    refine ⟨?_, ?_, trivial⟩
    · simp [D_PostEvent.suppressed, zeroState, zeroEvent]
    · simp [D_PostEvent.absorbed, hhook]
  obtain ⟨a1, a2, a3⟩ := postAll_stored env (k + 1) hM [deviceChange] (zeroState w) hpos hst1
    (by simp; omega)
  have a1b : (D_PostEvent env deviceChange (zeroState w)).eventhead = 1 := by
    have : (D_PostEvent env deviceChange (zeroState w)).eventhead
        = (0 + 1) % env.MAXEVENTS := a1
    rw [this, Nat.zero_add, h1mod]
  have a2b : (D_PostEvent env deviceChange (zeroState w)).eventtail = 0 := a2
  have a3b : (D_PostEvent env deviceChange (zeroState w)).events 0 = deviceChange := by
    have : queuedFrom env.MAXEVENTS (D_PostEvent env deviceChange (zeroState w)).events 0 1
        = posted env.MAXEVENTS 0 [deviceChange] := a3
    simp only [queuedFrom, posted, Nat.zero_mod, List.cons.injEq, Prod.mk.injEq, true_and,
      and_true] at this
    exact this
  have hr1 : (D_PostEvent env deviceChange (zeroState w)).inRange env :=
    ⟨by rw [a1b]; omega, by rw [a2b]; exact hpos⟩
  have hq1 : queued env (D_PostEvent env deviceChange (zeroState w)) = [(0, deviceChange)] := by
    rw [queued_of_content env _ 1 hr1.2 (by omega) (by rw [a1b, a2b, Nat.zero_add, h1mod]), a2b]
    simp only [queuedFrom, Nat.zero_mod, a3b]
  have hpass1 := pass_without_keyUp env (k + 1) hM _ hr1 fuel
    (by have := (head_eq env _ hr1).2; omega)
    (by rw [hq1]; intro p hp; simp at hp; subst hp; decide)
  -- the state after the first pass
  generalize hs2 : ({ D_PostEvent env deviceChange (zeroState w) with
      eventtail := (D_PostEvent env deviceChange (zeroState w)).eventhead,
      ext := (runRecs env (queued env (D_PostEvent env deviceChange (zeroState w)))
        ((D_PostEvent env deviceChange (zeroState w)).ext, freshLocals)).1 } : State W) = s2
    at hpass1
  have b1 : s2.eventhead = 1 := by rw [← hs2]; exact a1b
  have b2 : s2.eventtail = 1 := by rw [← hs2]; exact a1b
  have b3 : s2.events 0 = deviceChange := by rw [← hs2]; exact a3b
  -- the key-downs
  have hst3 : allStored env (List.replicate (env.MAXEVENTS - 1) (keyDown 30 97)) s2 := by
    apply allStored_of_noHook env hhook
    intro e he
    rw [List.eq_of_mem_replicate he]
    decide
  obtain ⟨c1, c2, c3⟩ := postAll_stored env (k + 1) hM _ s2 (by rw [b1]; omega) hst3
    (by rw [List.length_replicate]; omega)
  rw [List.length_replicate, b1] at c1 c3
  rw [b2] at c2
  have c1b : (postAll env (List.replicate (env.MAXEVENTS - 1) (keyDown 30 97)) s2).eventhead
      = 0 := by
    have : 1 + (env.MAXEVENTS - 1) = env.MAXEVENTS := by omega
    rw [c1, this, Nat.mod_self]
  obtain ⟨n, hn, _, _, f3⟩ := postAll_frame env (k + 1) hM
    (List.replicate (env.MAXEVENTS - 1) (keyDown 30 97)) s2 (by rw [b1]; omega)
  rw [List.length_replicate] at hn
  have c4 : (postAll env (List.replicate (env.MAXEVENTS - 1) (keyDown 30 97)) s2).events 0
      = deviceChange := by
    rw [f3 0, b3]
    intro j hj
    rw [b1, Nat.mod_eq_of_lt (by omega)]
    omega
  have hr3 : (postAll env (List.replicate (env.MAXEVENTS - 1) (keyDown 30 97)) s2).inRange env :=
    ⟨by rw [c1b]; exact hpos, by rw [c2]; omega⟩
  have hq3 : queued env (postAll env (List.replicate (env.MAXEVENTS - 1) (keyDown 30 97)) s2)
      = posted env.MAXEVENTS 1 (List.replicate (env.MAXEVENTS - 1) (keyDown 30 97)) := by
    rw [queued_of_content env _ (env.MAXEVENTS - 1) hr3.2 (by omega) (by rw [c1, c2]), c2]
    exact c3
  have hpass3 := pass_without_keyUp env (k + 1) hM _ hr3 fuel
    (by have := (head_eq env _ hr3).2; omega)
    (by
      rw [hq3]
      intro p hp
      rw [posted_replicate_type _ _ _ _ p hp]
      decide)
  have c5 : (postAll env (List.replicate (env.MAXEVENTS - 1) (keyDown 30 97)) s2).events
      (env.MAXEVENTS - 1) = keyDown 30 97 := by
    have hmem := mem_queuedFrom env.MAXEVENTS
      (postAll env (List.replicate (env.MAXEVENTS - 1) (keyDown 30 97)) s2).events
      (env.MAXEVENTS - 1) 1 (env.MAXEVENTS - 2) (by omega)
    have e : 1 + (env.MAXEVENTS - 2) = env.MAXEVENTS - 1 := by omega
    rw [e, Nat.mod_eq_of_lt (by omega), c3] at hmem
    exact posted_replicate_type _ _ _ _ _ hmem
  refine ⟨s2, _, hpass1, hpass3, ?_, ?_, ?_, ?_⟩
  · rfl
  · show (postAll env (List.replicate (env.MAXEVENTS - 1) (keyDown 30 97)) s2).events
      (((postAll env (List.replicate (env.MAXEVENTS - 1) (keyDown 30 97)) s2).eventhead
        + env.MAXEVENTS - 1) % env.MAXEVENTS) = keyDown 30 97
    rw [c1b, Nat.zero_add, Nat.mod_eq_of_lt (by omega)]
    exact c5
  · show (postAll env (List.replicate (env.MAXEVENTS - 1) (keyDown 30 97)) s2).events
      (postAll env (List.replicate (env.MAXEVENTS - 1) (keyDown 30 97)) s2).eventhead
        = deviceChange
    rw [c1b]
    exact c4
  · apply D_PostEvent_of_suppressed
    show decide (deviceChange.type = EGenericEvent.EV_DeviceChange
      ∧ ((postAll env (List.replicate (env.MAXEVENTS - 1) (keyDown 30 97)) s2).events
          (postAll env (List.replicate (env.MAXEVENTS - 1) (keyDown 30 97)) s2).eventhead).type
        = EGenericEvent.EV_DeviceChange) = true
    rw [c1b, c4]
    decide

/-- C19, at a concrete input: 128 slots, no hook, the responders of `gameEnv`. -/
theorem C19_stale_slot_suppression_witness :
    gameEnv.MAXEVENTS = 2 ^ (6 + 1) ∧ gameEnv.sysCallbacks.DispatchEvent = none
      ∧ gameEnv.MAXEVENTS ≤ 128
      ∧ ∃ s2 s4,
        D_ProcessEvents gameEnv 128 (D_PostEvent gameEnv deviceChange (zeroState ())) = some s2
        ∧ D_ProcessEvents gameEnv 128
            (postAll gameEnv (List.replicate (gameEnv.MAXEVENTS - 1) (keyDown 30 97)) s2)
              = some s4
        ∧ s4.eventhead = s4.eventtail
        ∧ s4.events ((s4.eventhead + gameEnv.MAXEVENTS - 1) % gameEnv.MAXEVENTS) = keyDown 30 97
        ∧ s4.events s4.eventhead = deviceChange
        ∧ D_PostEvent gameEnv deviceChange s4 = s4 :=
  ⟨by decide, rfl, by decide,
    C19_stale_slot_suppression gameEnv 6 (by decide) rfl () 128 (by decide)⟩

theorem process_empty (env : Env W) (fuel : Nat) (s : State W)
    (h : s.eventtail = s.eventhead) : D_ProcessEvents env fuel s = some s := by
  unfold D_ProcessEvents D_ProcessEvents.drain
  cases fuel <;> simp [D_ProcessEvents.loop, h, D_ProcessEvents.repost]

/-- C20. Effective capacity is `MAXEVENTS - 1`: fewer than `MAXEVENTS` records
stored into an empty queue are exactly the records the next pass reads, in
order, and the pass ends with the queue empty; but after `MAXEVENTS` records
stored into an empty queue `eventhead` equals `eventtail` again, the queue
counts as empty, and the next pass returns at once with the state unchanged:
no call is made for any of the records, which still sit in the buffer. -/
theorem C20_effective_capacity (env : Env W) (k : Nat) (hM : env.MAXEVENTS = 2 ^ k)
    (s0 : State W) (hempty : s0.eventtail = s0.eventhead)
    (hr : s0.eventhead < env.MAXEVENTS)
    (evs : List event_t) (hn : evs.length < env.MAXEVENTS) (hst : allStored env evs s0)
    (full : List event_t) (hfull : full.length = env.MAXEVENTS)
    (hstf : allStored env full s0)
    (fuel : Nat) (hfuel : evs.length ≤ fuel) (fuel2 : Nat) :
    (∃ s2 l2, D_ProcessEvents.drain env fuel (postAll env evs s0) = some (s2, l2)
        ∧ queued env (postAll env evs s0) = posted env.MAXEVENTS s0.eventhead evs
        ∧ (s2.ext, l2)
            = runRecs env (posted env.MAXEVENTS s0.eventhead evs)
                ((postAll env evs s0).ext, freshLocals)
        ∧ s2.eventtail = s2.eventhead)
      ∧ (postAll env full s0).eventhead = (postAll env full s0).eventtail
      ∧ queued env (postAll env full s0) = []
      ∧ queuedFrom env.MAXEVENTS (postAll env full s0).events s0.eventhead env.MAXEVENTS
          = posted env.MAXEVENTS s0.eventhead full
      ∧ D_ProcessEvents env fuel2 (postAll env full s0) = some (postAll env full s0) := by
  have hpos := pow_two_pos hM
  constructor
  · obtain ⟨h1, h2, h3⟩ := postAll_stored env k hM evs s0 hr hst (Nat.le_of_lt hn)
    have hr1 : (postAll env evs s0).inRange env :=
      ⟨by rw [h1]; exact Nat.mod_lt _ hpos, by rw [h2, hempty]; exact hr⟩
    have hlen : queueLength env (postAll env evs s0) = evs.length :=
      queueLength_of env _ _ hr1.2 hn (by rw [h1, h2, hempty])
    have hq : queued env (postAll env evs s0) = posted env.MAXEVENTS s0.eventhead evs := by
      unfold queued
      rw [hlen, h2, hempty, h3]
    have hdrain := drain_eq env k hM (postAll env evs s0) hr1 fuel (by rw [hlen]; exact hfuel)
    refine ⟨_, _, hdrain, hq, ?_, rfl⟩
    rw [← hq]
  · obtain ⟨h1, h2, h3⟩ := postAll_stored env k hM full s0 hr hstf (Nat.le_of_eq hfull)
    rw [hfull] at h1 h3
    have hht : (postAll env full s0).eventhead = (postAll env full s0).eventtail := by
      rw [h1, h2, hempty, Nat.add_mod_right, Nat.mod_eq_of_lt hr]
    refine ⟨hht, ?_, h3, process_empty env fuel2 _ hht.symm⟩
    unfold queued queueLength
    rw [hht]
    have : (postAll env full s0).eventtail + env.MAXEVENTS - (postAll env full s0).eventtail
        = env.MAXEVENTS := by omega
    rw [this, Nat.mod_self]
    rfl

/-- C20, at a concrete input: two records, then 128 key-downs, posted at
program start into a queue with 128 slots. -/
theorem C20_effective_capacity_witness :
    startState.eventtail = startState.eventhead
      ∧ startState.eventhead < gameEnv.MAXEVENTS
      ∧ [keyDown 30 97, keyUp 30 97].length < gameEnv.MAXEVENTS
      ∧ allStored gameEnv [keyDown 30 97, keyUp 30 97] startState
      ∧ (List.replicate 128 (keyDown 30 97)).length = gameEnv.MAXEVENTS
      ∧ allStored gameEnv (List.replicate 128 (keyDown 30 97)) startState
      ∧ (∃ s2 l2,
          D_ProcessEvents.drain gameEnv 2
              (postAll gameEnv [keyDown 30 97, keyUp 30 97] startState) = some (s2, l2)
          ∧ queued gameEnv (postAll gameEnv [keyDown 30 97, keyUp 30 97] startState)
              = posted gameEnv.MAXEVENTS startState.eventhead [keyDown 30 97, keyUp 30 97]
          ∧ (s2.ext, l2)
              = runRecs gameEnv
                  (posted gameEnv.MAXEVENTS startState.eventhead [keyDown 30 97, keyUp 30 97])
                  ((postAll gameEnv [keyDown 30 97, keyUp 30 97] startState).ext, freshLocals)
          ∧ s2.eventtail = s2.eventhead)
      ∧ (postAll gameEnv (List.replicate 128 (keyDown 30 97)) startState).eventhead
          = (postAll gameEnv (List.replicate 128 (keyDown 30 97)) startState).eventtail
      ∧ queued gameEnv (postAll gameEnv (List.replicate 128 (keyDown 30 97)) startState) = []
      ∧ queuedFrom gameEnv.MAXEVENTS
            (postAll gameEnv (List.replicate 128 (keyDown 30 97)) startState).events
            startState.eventhead gameEnv.MAXEVENTS
          = posted gameEnv.MAXEVENTS startState.eventhead (List.replicate 128 (keyDown 30 97))
      ∧ D_ProcessEvents gameEnv 0 (postAll gameEnv (List.replicate 128 (keyDown 30 97)) startState)
          = some (postAll gameEnv (List.replicate 128 (keyDown 30 97)) startState) :=
  ⟨rfl, by decide, by decide, ⟨by decide, by decide, by decide, by decide, trivial⟩,
    List.length_replicate 128 (keyDown 30 97),
    allStored_of_noHook gameEnv rfl _ (fun e he => by
      rw [List.eq_of_mem_replicate he]; decide) startState,
    C20_effective_capacity gameEnv 7 (by decide) startState rfl (by decide)
      [keyDown 30 97, keyUp 30 97] (by decide)
      ⟨by decide, by decide, by decide, by decide, trivial⟩
      (List.replicate 128 (keyDown 30 97)) (List.length_replicate 128 (keyDown 30 97))
      (allStored_of_noHook gameEnv rfl _ (fun e he => by
        rw [List.eq_of_mem_replicate he]; decide) startState)
      2 (by decide) 0⟩

end DEvent
